import Mathlib

/-!
# matchers_rewriter: AST matchers driving a text rewriter

A shallow embedding of `src/src_clang/matchers_rewriter.cpp`:

* the two match callbacks `IfStmtHandler::run` and `IncrementForLoopHandler::run`,
* the two matcher expressions registered by `MyASTConsumer::MyASTConsumer`,
* `MyASTConsumer::HandleTranslationUnit` and `MyFrontendAction::EndSourceFileAction`.

The syntax tree is the read-only tree the frontend hands to the tool; source locations
are byte offsets into the main file.  The library pieces the program calls (the matcher
combinators, the match finder and the rewriter with its edit buffer) are not part of
`src/`; each of them is modelled below under a doc comment that says so.

Texts are lists of characters, one character per byte of the file.
-/

namespace MatchersRewriter

/-! ## Text and the edit buffer -/

/-- A text: the bytes of a source file or of an inserted string. -/
abbrev Text := List Char

/-- Modelled from the spec: the Pending Edit of section 3 (the rewriter's edit buffer is
library code outside `src/`): an insertion point, the text to insert, and the
tie-break ordinal (insertion sequence number). -/
structure PendingEdit where
  offset : Nat
  text : Text
  ordinal : Nat
deriving DecidableEq

/-- Modelled from the spec: the Edit Buffer of section 4.4 (library code outside `src/`):
the pending insertions against the immutable original source, and the next
sequence ordinal to hand out. -/
structure EditBuffer where
  edits : List PendingEdit
  next : Nat
deriving DecidableEq

/-- Modelled from the spec: a fresh edit buffer holds no pending edit. -/
def EditBuffer.empty : EditBuffer := ⟨[], 0⟩

/-- Modelled from the spec: `insert(offset, text)` of section 4.4, which "appends a
Pending Edit with the next sequence ordinal". -/
def EditBuffer.insert (b : EditBuffer) (offset : Nat) (text : Text) : EditBuffer :=
  ⟨b.edits ++ [⟨offset, text, b.next⟩], b.next + 1⟩

/-- The rewriter's other insertion mode (`InsertAfter = false`), which no call in `src/`
uses and the spec does not describe: the text goes before every earlier insertion
at its offset. The new edit takes ordinal 0 and every earlier ordinal moves up by
one. -/
def EditBuffer.insertBefore (b : EditBuffer) (offset : Nat) (text : Text) : EditBuffer :=
  ⟨⟨offset, text, 0⟩ :: b.edits.map (fun e => ⟨e.offset, e.text, e.ordinal + 1⟩), b.next + 1⟩

/-- Modelled from the spec: the render order of section 4.4,
"(offset ascending, sequence ordinal ascending)". -/
def PendingEdit.le (a b : PendingEdit) : Prop :=
  a.offset < b.offset ∨ (a.offset = b.offset ∧ a.ordinal ≤ b.ordinal)

instance PendingEdit.decLe : DecidableRel PendingEdit.le :=
  fun a b => inferInstanceAs
    (Decidable (a.offset < b.offset ∨ (a.offset = b.offset ∧ a.ordinal ≤ b.ordinal)))

/-- Modelled from the spec: "sorting all Pending Edits by (offset ascending, sequence
ordinal ascending)" (section 4.4). -/
def sortEdits (edits : List PendingEdit) : List PendingEdit :=
  edits.insertionSort PendingEdit.le

/-- Modelled from the spec: the emission loop of `render` (section 4.4): "emitting
original source bytes up to each edit's offset followed by the edit's text, in that
sorted order, finally emitting the remainder of the source after the last offset".
`cur` is the number of source bytes already emitted. -/
def emit (src : Text) : Nat → List PendingEdit → Text
  | cur, [] => src.drop cur
  | cur, e :: es => (src.drop cur).take (e.offset - cur) ++ e.text ++ emit src e.offset es

/-- Modelled from the spec: EditRangeError of section 7, "a Pending Edit's offset falls
outside the source bounds ... reported with the offending offset". -/
structure EditRangeError where
  offset : Nat
deriving DecidableEq

/-- Modelled from the spec: `render(original_source)` of section 4.4, with the range
check of section 7 (an offset outside `[0, length]` is fatal to rendering). The
first offending edit in render order is the one reported. -/
def render (src : Text) (b : EditBuffer) : Except EditRangeError Text :=
  match (sortEdits b.edits).find? (fun e => decide (src.length < e.offset)) with
  | some e => .error ⟨e.offset⟩
  | none => .ok (emit src 0 (sortEdits b.edits))

/-- Deleting one inserted text from a rendered output: the text must stand at the
edit's offset; the result is the output without it. -/
def deleteText (out : Text) (e : PendingEdit) : Option Text :=
  if (out.drop e.offset).take e.text.length = e.text then
    some (out.take e.offset ++ out.drop (e.offset + e.text.length))
  else none

/-- Deleting the inserted texts from a rendered output, first to last in render order
(after the earlier ones are gone, an insertion stands at its original offset). -/
def deleteInserted : Text → List PendingEdit → Option Text
  | out, [] => some out
  | out, e :: es => (deleteText out e).bind (fun o => deleteInserted o es)

/-- Total length of the texts of a list of pending edits. -/
def insertedLength (edits : List PendingEdit) : Nat :=
  (edits.map (fun e => e.text.length)).sum

/-- Submitting a sequence of (offset, text) pairs to a fresh buffer, in order. -/
def submitAll (subs : List (Nat × Text)) : EditBuffer :=
  subs.foldl (fun b s => b.insert s.1 s.2) EditBuffer.empty

/-! ## Batch mode: merging edit sets -/

/-- Modelled from the spec: an Edit Set (section 3), a collection of pending edits. -/
abbrev EditSet := List PendingEdit

/-- Modelled from the spec: the ConflictReport of section 4.4 and 7(d), "naming the
offset and the distinct competing texts"; one entry per offset whose group keeps
more than one distinct text. -/
structure ConflictReport where
  conflicts : List (Nat × List Text)
deriving DecidableEq

/-- Modelled from the spec: "within a group, collapse byte-for-byte duplicates to one":
the edits of the list with each (offset, text) kept at its first occurrence only. -/
def collapseDuplicates : List PendingEdit → List PendingEdit
  | [] => []
  | e :: es =>
    e :: (collapseDuplicates es).filter (fun f => !(f.offset == e.offset && f.text == e.text))

/-- Modelled from the spec: the group of an offset after de-duplication, as the list of
its distinct texts. -/
def groupTexts (edits : List PendingEdit) (offset : Nat) : List Text :=
  ((collapseDuplicates edits).filter (fun e => e.offset == offset)).map (fun e => e.text)

/-- Modelled from the spec: the offsets that occur in a list of edits, each once. -/
def groupOffsets (edits : List PendingEdit) : List Nat :=
  (edits.map (fun e => e.offset)).dedup

/-- Modelled from the spec: `merge(edit_sets)` of section 4.4 (no merge exists in
`src/`; the program's closing comment only describes the replacements workflow).
The algorithm of 4.4 is followed; the "prefix/suffix-safe combination" that section
3 mentions is not defined anywhere in the spec and plays no part in 4.4:
"group all Pending Edits by offset; within a group, collapse byte-for-byte
duplicates to one; if a group still contains more than one distinct text after
de-duplication, the merge fails with a ConflictReport naming the offset and the
distinct competing texts ... On success, returns a single conflict-free EditSet". -/
def merge (editSets : List EditSet) : Except ConflictReport EditSet :=
  let all := editSets.flatten
  let bad := (groupOffsets all).filter (fun p => decide (1 < (groupTexts all p).length))
  if bad = [] then .ok (collapseDuplicates all)
  else .error ⟨bad.map (fun p => (p, groupTexts all p))⟩

/-! ## The syntax tree (read-only, built by the frontend) -/

/-- The types the tree's nodes carry. `isIntegerType` is what the matcher
`isInteger()` asks of a type. -/
inductive QualType
  | VoidTy | BoolTy | CharTy | ShortTy | IntTy | UnsignedIntTy | LongTy | UnsignedLongTy
  | FloatTy | DoubleTy
  | FunctionTy (result : QualType)
  | Pointer (pointee : QualType)
deriving DecidableEq

/-- The library's `QualType::isIntegerType`. -/
def QualType.isIntegerType : QualType → Bool
  | .BoolTy | .CharTy | .ShortTy | .IntTy | .UnsignedIntTy | .LongTy | .UnsignedLongTy => true
  | _ => false

/-- The kind of a declaration node; `ParmVar` is a `VarDecl` too (`ParmVarDecl` derives
from `VarDecl`). -/
inductive DeclKind
  | Var | ParmVar | Function | Typedef
deriving DecidableEq

/-- A declaration node over expressions `E`: `id` stands for the node's address (two
references name the same declaration exactly when the ids agree), `locStart` is
`getLocStart()` as a byte offset, `init` is `getAnyInitializer()`. -/
structure DeclOf (E : Type) where
  id : Nat
  kind : DeclKind
  name : String
  type : QualType
  locStart : Nat
  init : Option E

/-- Opcodes of `UnaryOperator`. -/
inductive UnaryOperatorKind
  | PostInc | PostDec | PreInc | PreDec | AddrOf | Deref | Plus | Minus | Not | LNot
deriving DecidableEq

/-- The library's `UnaryOperator::getOpcodeStr`. -/
def UnaryOperatorKind.getOpcodeStr : UnaryOperatorKind → String
  | .PostInc => "++" | .PostDec => "--" | .PreInc => "++" | .PreDec => "--"
  | .AddrOf => "&" | .Deref => "*" | .Plus => "+" | .Minus => "-"
  | .Not => "~" | .LNot => "!"

/-- Opcodes of `BinaryOperator` (compound assignments included). -/
inductive BinaryOperatorKind
  | Mul | Div | Rem | Add | Sub | Shl | Shr | LT | GT | LE | GE | EQ | NE
  | And | Xor | Or | LAnd | LOr | Assign | AddAssign | SubAssign | Comma
deriving DecidableEq

/-- The library's `BinaryOperator::getOpcodeStr`. -/
def BinaryOperatorKind.getOpcodeStr : BinaryOperatorKind → String
  | .Mul => "*" | .Div => "/" | .Rem => "%" | .Add => "+" | .Sub => "-"
  | .Shl => "<<" | .Shr => ">>" | .LT => "<" | .GT => ">" | .LE => "<=" | .GE => ">="
  | .EQ => "==" | .NE => "!=" | .And => "&" | .Xor => "^" | .Or => "|"
  | .LAnd => "&&" | .LOr => "||" | .Assign => "=" | .AddAssign => "+=" | .SubAssign => "-="
  | .Comma => ","

/-- Expression nodes. Implicit conversions are nodes of the tree (`ImplicitCastExpr`),
as are parentheses. A `DeclRefExpr` points at the declaration it names. -/
inductive Expr
  | IntegerLiteral (loc : Nat) (type : QualType) (value : Nat)
  | FloatingLiteral (loc : Nat) (type : QualType)
  | DeclRefExpr (loc : Nat) (type : QualType) (decl : DeclOf Expr)
  | ParenExpr (lparen : Nat) (sub : Expr)
  | ImplicitCastExpr (type : QualType) (sub : Expr)
  | UnaryOperator (opLoc : Nat) (type : QualType) (opcode : UnaryOperatorKind) (sub : Expr)
  | BinaryOperator (type : QualType) (opcode : BinaryOperatorKind) (lhs rhs : Expr)
  | ArraySubscriptExpr (type : QualType) (base idx : Expr)

/-- A declaration node of the tree. -/
abbrev Decl := DeclOf Expr

/-- The library's `Expr::getType`. -/
def Expr.getType : Expr → QualType
  | .IntegerLiteral _ t _ => t
  | .FloatingLiteral _ t => t
  | .DeclRefExpr _ t _ => t
  | .ParenExpr _ s => s.getType
  | .ImplicitCastExpr t _ => t
  | .UnaryOperator _ t _ _ => t
  | .BinaryOperator t _ _ _ => t
  | .ArraySubscriptExpr t _ _ => t

/-- The library's `getLocStart` on an expression: the offset of its first token. -/
def Expr.getLocStart : Expr → Nat
  | .IntegerLiteral l _ _ => l
  | .FloatingLiteral l _ => l
  | .DeclRefExpr l _ _ => l
  | .ParenExpr l _ => l
  | .ImplicitCastExpr _ s => s.getLocStart
  | .UnaryOperator l _ op s =>
    match op with
    | .PostInc => s.getLocStart
    | .PostDec => s.getLocStart
    | _ => l
  | .BinaryOperator _ _ lhs _ => lhs.getLocStart
  | .ArraySubscriptExpr _ base _ => base.getLocStart

/-- The library's `Expr::IgnoreParenImpCasts`: strips parentheses and implicit casts. -/
def Expr.IgnoreParenImpCasts : Expr → Expr
  | .ParenExpr _ s => s.IgnoreParenImpCasts
  | .ImplicitCastExpr _ s => s.IgnoreParenImpCasts
  | e => e

/-- The expression nodes below (and including) an expression, in pre-order. -/
def Expr.nodes : Expr → List Expr
  | .ParenExpr l s => .ParenExpr l s :: s.nodes
  | .ImplicitCastExpr t s => .ImplicitCastExpr t s :: s.nodes
  | .UnaryOperator l t o s => .UnaryOperator l t o s :: s.nodes
  | .BinaryOperator t o a b => .BinaryOperator t o a b :: (a.nodes ++ b.nodes)
  | .ArraySubscriptExpr t a b => .ArraySubscriptExpr t a b :: (a.nodes ++ b.nodes)
  | e => [e]

/-- Statement nodes. An expression is a statement (`ExprStmt` is the expression node
seen as a `Stmt`); absent children are `none` (null pointers in the tree). -/
inductive Stmt
  | NullStmt (semiLoc : Nat)
  | ExprStmt (e : Expr)
  | DeclStmt (loc : Nat) (decls : List Decl)
  | CompoundStmt (lbrace : Nat) (body : List Stmt)
  | IfStmt (ifLoc : Nat) (cond : Expr) (thenStmt : Stmt) (elseStmt : Option Stmt)
  | ForStmt (forLoc : Nat) (init : Option Stmt) (cond : Option Expr) (inc : Option Expr)
      (body : Stmt)
  | WhileStmt (whileLoc : Nat) (cond : Expr) (body : Stmt)
  | ReturnStmt (retLoc : Nat) (value : Option Expr)

/-- The library's `Stmt::getLocStart`: the offset of the statement's first token. -/
def Stmt.getLocStart : Stmt → Nat
  | .NullStmt l => l
  | .ExprStmt e => e.getLocStart
  | .DeclStmt l _ => l
  | .CompoundStmt l _ => l
  | .IfStmt l _ _ _ => l
  | .ForStmt l _ _ _ _ => l
  | .WhileStmt l _ _ => l
  | .ReturnStmt l _ => l

/-- The nodes of an optional expression child, each seen as a statement node. -/
def Expr.optStmtNodes : Option Expr → List Stmt
  | none => []
  | some e => e.nodes.map Stmt.ExprStmt

/-- The expression nodes of the initialisers of a list of declarations. -/
def Decl.initNodes : List Decl → List Stmt
  | [] => []
  | d :: ds => Expr.optStmtNodes d.init ++ Decl.initNodes ds

mutual
/-- The statement nodes below (and including) a statement in pre-order, children in the
order of `Stmt::children()`: this is the order in which the match finder visits
them. Expression nodes are included. -/
def Stmt.nodes : Stmt → List Stmt
  | .NullStmt l => [.NullStmt l]
  | .ExprStmt e => e.nodes.map Stmt.ExprStmt
  | .DeclStmt l ds => .DeclStmt l ds :: Decl.initNodes ds
  | .CompoundStmt l body => .CompoundStmt l body :: Stmt.nodesOfList body
  | .IfStmt l c t e =>
    .IfStmt l c t e :: (c.nodes.map Stmt.ExprStmt ++ t.nodes ++ Stmt.nodesOfOption e)
  | .ForStmt l i c n b =>
    .ForStmt l i c n b ::
      (Stmt.nodesOfOption i ++ Expr.optStmtNodes c ++ Expr.optStmtNodes n ++ b.nodes)
  | .WhileStmt l c b => .WhileStmt l c b :: (c.nodes.map Stmt.ExprStmt ++ b.nodes)
  | .ReturnStmt l v => .ReturnStmt l v :: Expr.optStmtNodes v
/-- The nodes of a list of statements, in order. -/
def Stmt.nodesOfList : List Stmt → List Stmt
  | [] => []
  | s :: ss => s.nodes ++ Stmt.nodesOfList ss
/-- The nodes of an optional child statement. -/
def Stmt.nodesOfOption : Option Stmt → List Stmt
  | none => []
  | some s => s.nodes
end

/-- A top-level declaration: a function (with its body when it is a definition) or a
variable. -/
inductive TopLevelDecl
  | FunctionDecl (decl : Decl) (params : List Decl) (body : Option Stmt)
  | VarDecl (decl : Decl)

/-- A translation unit: its top-level declarations in source order. -/
abbrev TranslationUnit := List TopLevelDecl

/-- The statement nodes of a top-level declaration, in visiting order. -/
def TopLevelDecl.stmtNodes : TopLevelDecl → List Stmt
  | .FunctionDecl _ params body => Decl.initNodes params ++ Stmt.nodesOfOption body
  | .VarDecl d => Expr.optStmtNodes d.init

/-- The statement nodes of a translation unit, in visiting order. -/
def TranslationUnit.stmtNodes (tu : TranslationUnit) : List Stmt :=
  (tu.map TopLevelDecl.stmtNodes).flatten

/-- Whether a statement node is a conditional (`IfStmt`). -/
def Stmt.isIfStmt : Stmt → Bool
  | .IfStmt _ _ _ _ => true
  | _ => false


/-! ## The rewriter -/

/-- Part of the indentation model below: the whitespace that counts as indentation
(blank, tab, form feed, vertical tab, carriage return; never a newline). -/
def isWhitespaceExceptNL (c : Char) : Bool :=
  c == ' ' || c == '\t' || c == '\x0c' || c == '\x0b' || c == '\r'

/-- Part of the indentation model below: the offset at which the line containing offset
`offs` starts, just after the last line end (newline or carriage return) before
`offs`. -/
def lineStart (src : Text) (offs : Nat) : Nat :=
  offs - ((src.take offs).reverse.takeWhile (fun c => c != '\n' && c != '\r')).length

/-- Part of the indentation model below: the leading whitespace of the line containing
offset `offs`. -/
def indentSpace (src : Text) (offs : Nat) : Text :=
  (src.drop (lineStart src offs)).takeWhile isWhitespaceExceptNL

/-- Part of the indentation model below: splitting a text at its newlines (empty pieces
kept). -/
def splitLines : Text → List Text
  | [] => [[]]
  | c :: cs =>
    if c = '\n' then [] :: splitLines cs
    else
      match splitLines cs with
      | [] => [[c]]
      | l :: ls => (c :: l) :: ls

/-- Part of the indentation model below: joining lines again, each newline followed by
the indentation. -/
def joinIndented (indent : Text) : List Text → Text
  | [] => []
  | [l] => l
  | l :: ls => l ++ '\n' :: (indent ++ joinIndented indent ls)

/-- Modelled from the spec: the text an insertion with `indentNewLines` puts into the
buffer (`Rewriter::InsertText`, library code outside `src/`). The spec is silent on
the flag; this is the rewriter's documented behaviour, which the documented output
in `src/inputs/c_if_and_for.c` (lines 38-39) exhibits: every newline of the string
is followed by the leading whitespace of the source line that contains the
insertion point. -/
def indentLines (src : Text) (offs : Nat) (Str : Text) : Text :=
  joinIndented (indentSpace src offs) (splitLines Str)

/-- Modelled from the spec: the text an insertion request puts into the buffer (library
code outside `src/`): the string itself, indented when `indentNewLines` is set and
the string contains a newline. -/
def insertedText (src : Text) (Loc : Nat) (Str : Text) (indentNewLines : Bool) : Text :=
  if indentNewLines && Str.contains '\n' then indentLines src Loc Str else Str

/-- Modelled from the spec: the rewriter (library code outside `src/`): the main file's
original text and its edit buffer (section 4.4). -/
structure Rewriter where
  source : Text
  buffer : EditBuffer
deriving DecidableEq

/-- Modelled from the spec: `Rewriter::InsertText(Loc, Str, InsertAfter,
indentNewLines)` (library code outside `src/`): with `InsertAfter` the text is
appended to the buffer as `insert(offset, text)` of section 4.4, so it renders
after the earlier insertions at that offset (without it, before them); with
`indentNewLines` a string that contains a newline is indented first. -/
def Rewriter.InsertText (R : Rewriter) (Loc : Nat) (Str : Text)
    (InsertAfter indentNewLines : Bool) : Rewriter :=
  let Str := insertedText R.source Loc Str indentNewLines
  ⟨R.source, if InsertAfter then R.buffer.insert Loc Str else R.buffer.insertBefore Loc Str⟩

/-- A sequence of insertion requests made the way the handlers make them
(`InsertAfter` and `indentNewLines` both true), in order. -/
def applyInsertions (R : Rewriter) (ins : List (Nat × Text)) : Rewriter :=
  ins.foldl (fun R i => R.InsertText i.1 i.2 true true) R

/-! ## Bound nodes and matchers -/

/-- A node a matcher can bind: a statement (expressions included) or a declaration. -/
inductive DynTypedNode
  | stmt (s : Stmt)
  | decl (d : Decl)

/-- Modelled from the spec: the Binding Set of section 3, "a mapping from capture name
to Node ... keys unique". -/
structure BoundNodes where
  NodeMap : List (String × DynTypedNode)

/-- Binding a name: a later binding of the same name replaces the earlier one. -/
def BoundNodes.setBinding (b : BoundNodes) (ID : String) (n : DynTypedNode) : BoundNodes :=
  ⟨(ID, n) :: b.NodeMap.filter (fun x => x.1 != ID)⟩

/-- Looking a name up. -/
def BoundNodes.getNode (b : BoundNodes) (ID : String) : Option DynTypedNode :=
  (b.NodeMap.find? (fun x => x.1 == ID)).map (fun x => x.2)

/-- The fields of a conditional node, as read through an `IfStmt` pointer. -/
structure IfStmt where
  ifLoc : Nat
  cond : Expr
  thenStmt : Stmt
  elseStmt : Option Stmt

/-- The library's `IfStmt::getThen`. -/
def IfStmt.getThen (s : IfStmt) : Stmt := s.thenStmt

/-- The library's `IfStmt::getElse`: `none` is the null pointer. -/
def IfStmt.getElse (s : IfStmt) : Option Stmt := s.elseStmt

/-- The library's `getNodeAs<IfStmt>(ID)`: the node bound to `ID` when it is a
conditional, else the null pointer. -/
def BoundNodes.getNodeAs_IfStmt (b : BoundNodes) (ID : String) : Option IfStmt :=
  match b.getNode ID with
  | some (.stmt (.IfStmt l c t e)) => some ⟨l, c, t, e⟩
  | _ => none

/-- Whether a declaration is a `VarDecl` (parameters included). -/
def DeclOf.isVarDecl {E : Type} (d : DeclOf E) : Bool :=
  d.kind == DeclKind.Var || d.kind == DeclKind.ParmVar

/-- The library's `getNodeAs<VarDecl>(ID)`: the node bound to `ID` when it is a variable
declaration, else the null pointer. -/
def BoundNodes.getNodeAs_VarDecl (b : BoundNodes) (ID : String) : Option Decl :=
  match b.getNode ID with
  | some (.decl d) => if d.isVarDecl then some d else none
  | _ => none

/-- Modelled from the spec: a Pattern (section 4.1), `match(pattern, node) ->
Option<BindingSet>`, threading the bindings made so far; `none` is a failed match
and leaves no partial binding behind. -/
abbrev Matcher (α : Type) := α → BoundNodes → Option BoundNodes

/-- Modelled from the spec: conjunction of sub-constraints on one node (section 4.1). -/
def allOf {α : Type} : List (Matcher α) → Matcher α
  | [] => fun _ b => some b
  | m :: ms => fun n b => (m n b).bind (allOf ms n)

/-- How a node of each kind is stored in a binding. -/
class AsDynTypedNode (α : Type) where
  create : α → DynTypedNode

instance instAsDynTypedNodeStmt : AsDynTypedNode Stmt := ⟨DynTypedNode.stmt⟩

instance instAsDynTypedNodeExpr : AsDynTypedNode Expr :=
  ⟨fun e => DynTypedNode.stmt (Stmt.ExprStmt e)⟩

instance instAsDynTypedNodeDecl : AsDynTypedNode (DeclOf Expr) := ⟨DynTypedNode.decl⟩

/-- Modelled from the spec: the capture of section 4.1 (`.bind(ID)` of the matcher
library): when the inner pattern matches, the node is bound to the name. -/
def Matcher.bind {α : Type} [AsDynTypedNode α] (m : Matcher α) (ID : String) : Matcher α :=
  fun n b => (m n b).map (fun b => b.setBinding ID (AsDynTypedNode.create n))

/-- Modelled from the spec: kind constraint "conditional" (`ifStmt(...)`). -/
def ifStmt (inner : List (Matcher Stmt)) : Matcher Stmt := fun n b =>
  match n with
  | .IfStmt _ _ _ _ => allOf inner n b
  | _ => none

/-- Modelled from the spec: kind constraint "loop" (`forStmt(...)`). -/
def forStmt (inner : List (Matcher Stmt)) : Matcher Stmt := fun n b =>
  match n with
  | .ForStmt _ _ _ _ _ => allOf inner n b
  | _ => none

/-- Modelled from the spec: kind constraint "declaration statement" (`declStmt(...)`). -/
def declStmt (inner : List (Matcher Stmt)) : Matcher Stmt := fun n b =>
  match n with
  | .DeclStmt _ _ => allOf inner n b
  | _ => none

/-- Modelled from the spec: sub-pattern on the named child "initializer" of a loop
(`hasLoopInit`); a missing child is a failure. -/
def hasLoopInit (m : Matcher Stmt) : Matcher Stmt := fun n b =>
  match n with
  | .ForStmt _ (some init) _ _ _ => m init b
  | _ => none

/-- Modelled from the spec: sub-pattern on the named child "increment" of a loop
(`hasIncrement`); a missing child is a failure. -/
def hasIncrement (m : Matcher Expr) : Matcher Stmt := fun n b =>
  match n with
  | .ForStmt _ _ _ (some inc) _ => m inc b
  | _ => none

/-- Modelled from the spec: sub-pattern on the named child "condition"
(`hasCondition`); a missing child is a failure. -/
def hasCondition (m : Matcher Expr) : Matcher Stmt := fun n b =>
  match n with
  | .ForStmt _ _ (some cond) _ _ => m cond b
  | .IfStmt _ cond _ _ => m cond b
  | .WhileStmt _ cond _ => m cond b
  | _ => none

/-- Modelled from the spec: `hasSingleDecl`: the declaration statement declares exactly
one declaration, and it matches. -/
def hasSingleDecl (m : Matcher Decl) : Matcher Stmt := fun n b =>
  match n with
  | .DeclStmt _ [d] => m d b
  | _ => none

/-- Modelled from the spec: kind constraint "variable declaration" (`varDecl(...)`). -/
def varDecl (inner : List (Matcher Decl)) : Matcher Decl := fun n b =>
  if n.isVarDecl then allOf inner n b else none

/-- Modelled from the spec: sub-pattern on the named child "initializer" of a
declaration (`hasInitializer`); a missing child is a failure. The pattern is tried
on the initializer node itself. -/
def hasInitializer (m : Matcher Expr) : Matcher Decl := fun n b =>
  match n.init with
  | some e => m e b
  | none => none

/-- Modelled from the spec: kind constraint "literal" (`integerLiteral(...)`). -/
def integerLiteral (inner : List (Matcher Expr)) : Matcher Expr := fun n b =>
  match n with
  | .IntegerLiteral _ _ _ => allOf inner n b
  | _ => none

/-- Modelled from the spec: value predicate "equals integer" (`equals(v)`). -/
def equals (v : Nat) : Matcher Expr := fun n b =>
  match n with
  | .IntegerLiteral _ _ value => if value = v then some b else none
  | _ => none

/-- Modelled from the spec: kind constraint "unary-operation" (`unaryOperator(...)`). -/
def unaryOperator (inner : List (Matcher Expr)) : Matcher Expr := fun n b =>
  match n with
  | .UnaryOperator _ _ _ _ => allOf inner n b
  | _ => none

/-- Modelled from the spec: kind constraint "binary-operation"
(`binaryOperator(...)`). -/
def binaryOperator (inner : List (Matcher Expr)) : Matcher Expr := fun n b =>
  match n with
  | .BinaryOperator _ _ _ _ => allOf inner n b
  | _ => none

/-- Modelled from the spec: kind constraint "reference" (`declRefExpr(...)`). -/
def declRefExpr (inner : List (Matcher Expr)) : Matcher Expr := fun n b =>
  match n with
  | .DeclRefExpr _ _ _ => allOf inner n b
  | _ => none

/-- Modelled from the spec: kind constraint "any" on an expression (`expr(...)`). -/
def expr (inner : List (Matcher Expr)) : Matcher Expr := fun n b => allOf inner n b

/-- Modelled from the spec: value predicate "operator name equals"
(`hasOperatorName`), on unary and binary operators. -/
def hasOperatorName (Name : String) : Matcher Expr := fun n b =>
  match n with
  | .UnaryOperator _ _ op _ => if op.getOpcodeStr = Name then some b else none
  | .BinaryOperator _ op _ _ => if op.getOpcodeStr = Name then some b else none
  | _ => none

/-- Modelled from the spec: sub-pattern on the operand of a unary operator
(`hasUnaryOperand`), tried on the operand node itself. -/
def hasUnaryOperand (m : Matcher Expr) : Matcher Expr := fun n b =>
  match n with
  | .UnaryOperator _ _ _ sub => m sub b
  | _ => none

/-- Modelled from the spec: sub-pattern on the left operand (`hasLHS`). -/
def hasLHS (m : Matcher Expr) : Matcher Expr := fun n b =>
  match n with
  | .BinaryOperator _ _ lhs _ => m lhs b
  | .ArraySubscriptExpr _ lhs _ => m lhs b
  | _ => none

/-- Modelled from the spec: sub-pattern on the right operand (`hasRHS`). -/
def hasRHS (m : Matcher Expr) : Matcher Expr := fun n b =>
  match n with
  | .BinaryOperator _ _ _ rhs => m rhs b
  | .ArraySubscriptExpr _ _ rhs => m rhs b
  | _ => none

/-- Modelled from the spec: `to(...)` (`to` is a reserved word here): the declaration a
reference names matches. -/
def to_ (m : Matcher Decl) : Matcher Expr := fun n b =>
  match n with
  | .DeclRefExpr _ _ d => m d b
  | _ => none

/-- Modelled from the spec: `ignoringParenImpCasts`: the pattern is tried on the
expression with its parentheses and implicit casts stripped. -/
def ignoringParenImpCasts (m : Matcher Expr) : Matcher Expr := fun n b =>
  m n.IgnoreParenImpCasts b

/-- The nodes that carry a type. -/
class HasType (α : Type) where
  getType : α → QualType

instance instHasTypeExpr : HasType Expr := ⟨Expr.getType⟩

instance instHasTypeDecl : HasType (DeclOf Expr) := ⟨fun d => d.type⟩

/-- Modelled from the spec: `hasType`: the node's type matches. -/
def hasType {α : Type} [HasType α] (m : Matcher QualType) : Matcher α := fun n b =>
  m (HasType.getType n) b

/-- Modelled from the spec: `isInteger()`: the type is an integer type. -/
def isInteger : Matcher QualType := fun t b =>
  if t.isIntegerType then some b else none

/-! ## The match finder -/

/-- The library's `MatchFinder::MatchResult`: the bindings of one match. -/
structure MatchResult where
  Nodes : BoundNodes

/-- A match callback's `run`: from the match result and the rewriter it shares to the
rewriter afterwards; `none` is a run that dereferences a null pointer. -/
abbrev MatchCallback := MatchResult → Rewriter → Option Rewriter

/-- Modelled from the spec: the registrations of the Matcher Engine (section 4.2), "an
ordered sequence of (Pattern, Callback) pairs". -/
structure MatchFinder where
  Matchers : List (Matcher Stmt × MatchCallback)

/-- Modelled from the spec: `register(pattern, callback)` (`addMatcher`). -/
def MatchFinder.addMatcher (f : MatchFinder) (m : Matcher Stmt) (cb : MatchCallback) :
    MatchFinder :=
  ⟨f.Matchers ++ [(m, cb)]⟩

/-- Modelled from the spec: one visited node (section 4.2): "for every registration in
registration order, the engine attempts match; on success it invokes the paired
callback synchronously with the produced BindingSet". -/
def matchNode : List (Matcher Stmt × MatchCallback) → Stmt → Rewriter → Option Rewriter
  | [], _, R => some R
  | (m, cb) :: rest, n, R =>
    match m n ⟨[]⟩ with
    | some b => (cb ⟨b⟩ R).bind (matchNode rest n)
    | none => matchNode rest n R

/-- Modelled from the spec: the walk over the visited nodes, in order. -/
def matchNodes (regs : List (Matcher Stmt × MatchCallback)) :
    List Stmt → Rewriter → Option Rewriter
  | [], R => some R
  | n :: ns, R => (matchNode regs n R).bind (matchNodes regs ns)

/-- Modelled from the spec: `run(root, registrations)` of section 4.2 (`matchAST`): a
single pre-order walk of the tree. -/
def MatchFinder.matchAST (f : MatchFinder) (tu : TranslationUnit) (R : Rewriter) :
    Option Rewriter :=
  matchNodes f.Matchers tu.stmtNodes R

/-- The bindings of every match of one pattern over a tree, in visiting order. -/
def matchesOf (m : Matcher Stmt) (tu : TranslationUnit) : List BoundNodes :=
  tu.stmtNodes.filterMap (fun n => m n ⟨[]⟩)

/-! ## The program: `src/src_clang/matchers_rewriter.cpp` -/

/-- `IfStmtHandler::run` (lines 40-51): when the node bound to "ifStmt" is a
conditional, insert the 'if' marker at the start of the then-branch and, when there
is an else-branch, the 'else' marker at its start. -/
def IfStmtHandler.run (Result : MatchResult) (Rewrite : Rewriter) : Option Rewriter :=
  match Result.Nodes.getNodeAs_IfStmt "ifStmt" with
  | some IfS =>
    let Then := IfS.getThen
    let Rewrite := Rewrite.InsertText Then.getLocStart "// the 'if' part\n".toList true true
    match IfS.getElse with
    | some Else =>
      some (Rewrite.InsertText Else.getLocStart "// the 'else' part\n".toList true true)
    | none => some Rewrite
  | none => some Rewrite

/-- `IncrementForLoopHandler::run` (lines 61-64): the node bound to "incVarName" is
used without a null check; `none` is the dereference of a null pointer. -/
def IncrementForLoopHandler.run (Result : MatchResult) (Rewrite : Rewriter) :
    Option Rewriter :=
  match Result.Nodes.getNodeAs_VarDecl "incVarName" with
  | some IncVar => some (Rewrite.InsertText IncVar.locStart "/* increment */".toList true true)
  | none => none

/-- The first matcher of `MyASTConsumer::MyASTConsumer` (line 77). -/
def ifStmtMatcher : Matcher Stmt := (ifStmt []).bind "ifStmt"

/-- The second matcher of `MyASTConsumer::MyASTConsumer` (lines 83-96). -/
def forLoopMatcher : Matcher Stmt :=
  (forStmt [
    hasLoopInit (declStmt [hasSingleDecl
      ((varDecl [hasInitializer (integerLiteral [equals 0])]).bind "initVarName")]),
    hasIncrement (unaryOperator [
      hasOperatorName "++",
      hasUnaryOperand (declRefExpr [to_
        ((varDecl [hasType isInteger]).bind "incVarName")])]),
    hasCondition (binaryOperator [
      hasOperatorName "<",
      hasLHS (ignoringParenImpCasts (declRefExpr [to_
        ((varDecl [hasType isInteger]).bind "condVarName")])),
      hasRHS (expr [hasType isInteger])])]).bind "forLoop"

/-- The finder `MyASTConsumer::MyASTConsumer` builds (lines 75-98): both registrations,
in the order of the two `addMatcher` calls. -/
def MyASTConsumer.Matcher : MatchFinder :=
  ((MatchFinder.mk []).addMatcher ifStmtMatcher IfStmtHandler.run).addMatcher
    forLoopMatcher IncrementForLoopHandler.run

/-- `MyASTConsumer::HandleTranslationUnit` (lines 100-103). -/
def MyASTConsumer.HandleTranslationUnit (tu : TranslationUnit) (R : Rewriter) :
    Option Rewriter :=
  MyASTConsumer.Matcher.matchAST tu R

/-- `MyFrontendAction::CreateASTConsumer` (lines 120-124): the rewriter is set up on the
main file, with nothing inserted yet. -/
def MyFrontendAction.CreateASTConsumer (source : Text) : Rewriter :=
  ⟨source, EditBuffer.empty⟩

/-- `MyFrontendAction::EndSourceFileAction` (lines 115-118): the main file's edit buffer
is written out. -/
def MyFrontendAction.EndSourceFileAction (TheRewriter : Rewriter) :
    Except EditRangeError Text :=
  render TheRewriter.source TheRewriter.buffer

/-- One run of the tool on one file: set up, match, write. `none` is a crashed run. -/
def runTool (source : Text) (tu : TranslationUnit) : Option (Except EditRangeError Text) :=
  (MyASTConsumer.HandleTranslationUnit tu (MyFrontendAction.CreateASTConsumer source)).map
    MyFrontendAction.EndSourceFileAction


/-! ## The sample input `src/inputs/c_if_and_for.c` and other concrete trees -/

/-- Lines 1-13 of `src/inputs/c_if_and_for.c`: the functions `foo`, `bar`, `bang`
(the comment blocks that follow in the file are left out). -/
def sampleSource : Text :=
  ("void foo(int* a, int *b) \x7b\n" ++
   "  if (a[0] > 1) \x7b\n" ++
   "    b[0] = 2;\n" ++
   "  \x7d\n" ++
   "\x7d\n" ++
   "\n" ++
   "void bar(float x, float y); // just a declaration\n" ++
   "\n" ++
   "void bang(int* a, int v) \x7b\n" ++
   "    for (int i = 0; i < v; ++i) \x7b\n" ++
   "        a[i] -= i;\n" ++
   "    \x7d\n" ++
   "\x7d\n").toList

/-- Lines 37-50 of `src/inputs/c_if_and_for.c` without their leading `//`: the output
of the tool the file documents. -/
def documentedOutput : Text :=
  ("void foo(int* a, int *b) \x7b\n" ++
   "  if (a[0] > 1) // the 'if' part\n" ++
   "  \x7b\n" ++
   "    b[0] = 2;\n" ++
   "  \x7d\n" ++
   "\x7d\n" ++
   "\n" ++
   "void bar(float x, float y); // just a declaration\n" ++
   "\n" ++
   "void bang(int* a, int v) \x7b\n" ++
   "    for (/* increment */int i = 0; i < v; ++i) \x7b\n" ++
   "        a[i] -= i;\n" ++
   "    \x7d\n" ++
   "\x7d\n").toList

/-- A variable or parameter declaration without initializer. -/
def mkVar (id : Nat) (kind : DeclKind) (name : String) (type : QualType) (loc : Nat) : Decl :=
  ⟨id, kind, name, type, loc, none⟩

/-- The parameters `a` and `b` of `foo` (offsets 9 and 17). -/
def fooA : Decl := mkVar 1 .ParmVar "a" (.Pointer .IntTy) 9
def fooB : Decl := mkVar 2 .ParmVar "b" (.Pointer .IntTy) 17

/-- The conditional of `foo` (offset 29): `if (a[0] > 1) \x7b b[0] = 2; \x7d`, the
then-branch's brace at offset 43, no else-branch. -/
def fooIf : Stmt :=
  .IfStmt 29
    (.BinaryOperator .IntTy .GT
      (.ImplicitCastExpr .IntTy
        (.ArraySubscriptExpr .IntTy
          (.ImplicitCastExpr (.Pointer .IntTy) (.DeclRefExpr 33 (.Pointer .IntTy) fooA))
          (.IntegerLiteral 35 .IntTy 0)))
      (.IntegerLiteral 40 .IntTy 1))
    (.CompoundStmt 43
      [.ExprStmt (.BinaryOperator .IntTy .Assign
        (.ArraySubscriptExpr .IntTy
          (.ImplicitCastExpr (.Pointer .IntTy) (.DeclRefExpr 49 (.Pointer .IntTy) fooB))
          (.IntegerLiteral 51 .IntTy 0))
        (.IntegerLiteral 56 .IntTy 2))])
    none

/-- The definition of `foo`. -/
def fooDecl : TopLevelDecl :=
  .FunctionDecl ⟨0, .Function, "foo", .FunctionTy .VoidTy, 0, none⟩ [fooA, fooB]
    (some (.CompoundStmt 25 [fooIf]))

/-- The declaration `void bar(float x, float y);` (offset 66): no body. -/
def barDecl : TopLevelDecl :=
  .FunctionDecl ⟨3, .Function, "bar", .FunctionTy .VoidTy, 66, none⟩
    [mkVar 4 .ParmVar "x" .FloatTy 75, mkVar 5 .ParmVar "y" .FloatTy 84] none

/-- The parameters `a` and `v` of `bang` (offsets 127 and 135). -/
def bangA : Decl := mkVar 7 .ParmVar "a" (.Pointer .IntTy) 127
def bangV : Decl := mkVar 8 .ParmVar "v" .IntTy 135

/-- The loop variable of `bang`: `int i = 0`, declared at offset 153. -/
def bangI : Decl := ⟨9, .Var, "i", .IntTy, 153, some (.IntegerLiteral 161 .IntTy 0)⟩

/-- The loop of `bang` (offset 148): `for (int i = 0; i < v; ++i) \x7b a[i] -= i; \x7d`. -/
def bangFor : Stmt :=
  .ForStmt 148
    (some (.DeclStmt 153 [bangI]))
    (some (.BinaryOperator .IntTy .LT
      (.ImplicitCastExpr .IntTy (.DeclRefExpr 164 .IntTy bangI))
      (.ImplicitCastExpr .IntTy (.DeclRefExpr 168 .IntTy bangV))))
    (some (.UnaryOperator 171 .IntTy .PreInc (.DeclRefExpr 173 .IntTy bangI)))
    (.CompoundStmt 176
      [.ExprStmt (.BinaryOperator .IntTy .SubAssign
        (.ArraySubscriptExpr .IntTy
          (.ImplicitCastExpr (.Pointer .IntTy) (.DeclRefExpr 186 (.Pointer .IntTy) bangA))
          (.ImplicitCastExpr .IntTy (.DeclRefExpr 188 .IntTy bangI)))
        (.ImplicitCastExpr .IntTy (.DeclRefExpr 194 .IntTy bangI)))])

/-- The definition of `bang`. -/
def bangDecl : TopLevelDecl :=
  .FunctionDecl ⟨6, .Function, "bang", .FunctionTy .VoidTy, 117, none⟩ [bangA, bangV]
    (some (.CompoundStmt 142 [bangFor]))

/-- The tree of the sample input. -/
def sampleTU : TranslationUnit := [fooDecl, barDecl, bangDecl]

/-- The source `void bar(float x, float y);` alone. -/
def barSource : Text := "void bar(float x, float y);\n".toList

/-- The tree of `barSource`: the one declaration, at offset 0. -/
def barTU : TranslationUnit :=
  [.FunctionDecl ⟨3, .Function, "bar", .FunctionTy .VoidTy, 0, none⟩
    [mkVar 4 .ParmVar "x" .FloatTy 9, mkVar 5 .ParmVar "y" .FloatTy 18] none]

/-- The source of the loop whose condition and increment name different variables. -/
def mixedSource : Text :=
  ("void f(int j, int k, int n) \x7b\n" ++
   "  for (int i = 0; j < n; ++k) ;\n" ++
   "\x7d\n").toList

/-- Three distinct integer parameters `j`, `k`, `n` of `f` (ids 12, 13, 14; offsets 7,
14, 21). -/
def varJ : Decl := mkVar 12 .ParmVar "j" .IntTy 7
def varK : Decl := mkVar 13 .ParmVar "k" .IntTy 14
def varN : Decl := mkVar 14 .ParmVar "n" .IntTy 21

/-- The loop `for (int i = 0; j < n; ++k) ;` (offset 32): the condition tests `j`, the
increment steps `k`. -/
def mixedFor : Stmt :=
  .ForStmt 32
    (some (.DeclStmt 37 [⟨11, .Var, "i", .IntTy, 37, some (.IntegerLiteral 45 .IntTy 0)⟩]))
    (some (.BinaryOperator .IntTy .LT
      (.ImplicitCastExpr .IntTy (.DeclRefExpr 48 .IntTy varJ))
      (.ImplicitCastExpr .IntTy (.DeclRefExpr 52 .IntTy varN))))
    (some (.UnaryOperator 55 .IntTy .PreInc (.DeclRefExpr 57 .IntTy varK)))
    (.NullStmt 60)

/-- The loop `for (int i = 0; i < n; ++i) ;` at the same place of the same function:
condition and increment both name the loop variable `i` (id 11, declared at offset
37). -/
def sameI : Decl := ⟨11, .Var, "i", .IntTy, 37, some (.IntegerLiteral 45 .IntTy 0)⟩
def sameFor : Stmt :=
  .ForStmt 32
    (some (.DeclStmt 37 [sameI]))
    (some (.BinaryOperator .IntTy .LT
      (.ImplicitCastExpr .IntTy (.DeclRefExpr 48 .IntTy sameI))
      (.ImplicitCastExpr .IntTy (.DeclRefExpr 52 .IntTy varN))))
    (some (.UnaryOperator 55 .IntTy .PreInc (.DeclRefExpr 57 .IntTy sameI)))
    (.NullStmt 60)

/-- The tree of `mixedSource`. -/
def mixedTU : TranslationUnit :=
  [.FunctionDecl ⟨10, .Function, "f", .FunctionTy .VoidTy, 0, none⟩ [varJ, varK, varN]
    (some (.CompoundStmt 28 [mixedFor]))]

/-- The source of a counting loop over a `long` variable. -/
def longSource : Text :=
  ("void g(long e) \x7b\n" ++
   "  for (long x = 0; x < e; ++x) ;\n" ++
   "\x7d\n").toList

/-- The loop variable `long x = 0` (offset 24): the frontend converts the `int` literal
to `long`, so the initializer node is an implicit cast around the literal. -/
def longX : Decl :=
  ⟨21, .Var, "x", .LongTy, 24, some (.ImplicitCastExpr .LongTy (.IntegerLiteral 33 .IntTy 0))⟩

/-- The `long` parameter `e` of `g` (offset 7). -/
def longE : Decl := mkVar 22 .ParmVar "e" .LongTy 7

/-- The loop `for (long x = 0; x < e; ++x) ;` (offset 19): init, condition and
increment all name the one declaration `longX`. -/
def longFor : Stmt :=
  .ForStmt 19
    (some (.DeclStmt 24 [longX]))
    (some (.BinaryOperator .IntTy .LT
      (.ImplicitCastExpr .LongTy (.DeclRefExpr 36 .LongTy longX))
      (.ImplicitCastExpr .LongTy (.DeclRefExpr 40 .LongTy longE))))
    (some (.UnaryOperator 43 .LongTy .PreInc (.DeclRefExpr 45 .LongTy longX)))
    (.NullStmt 48)

/-- The tree of `longSource`. -/
def longTU : TranslationUnit :=
  [.FunctionDecl ⟨20, .Function, "g", .FunctionTy .VoidTy, 0, none⟩ [longE]
    (some (.CompoundStmt 15 [longFor]))]

/-! ## What the claims name -/

/-- The marker texts of `IfStmtHandler`. -/
def ifMarker : Text := "// the 'if' part\n".toList
def elseMarker : Text := "// the 'else' part\n".toList

/-- The insertions claimed for a conditional: the 'if' marker at the start of the
then-branch, then the 'else' marker at the start of the else-branch when there is
one. -/
def ifInsertions (thenStmt : Stmt) (elseStmt : Option Stmt) : List (Nat × Text) :=
  (thenStmt.getLocStart, ifMarker) ::
    (match elseStmt with
     | some e => [(e.getLocStart, elseMarker)]
     | none => [])

/-- What the claims call the leading whitespace of the line containing the insertion
point, said of a text `w` without reference to how the rewriter computes it: the
source up to offset `p` is `before ++ line`, where `line` holds no line end and
`before` is empty or ends in one (so the line of `p` starts at `before.length`); from
there on the source is `w ++ rest`, where `w` is whitespace only (blank, tab, form
feed, vertical tab, carriage return) and `rest` does not start with whitespace. -/
def IsLineIndent (src : Text) (p : Nat) (w : Text) : Prop :=
  ∃ before line rest : Text,
    src.take p = before ++ line ∧
    (∀ c ∈ line, c ≠ '\n' ∧ c ≠ '\r') ∧
    (before = [] ∨ before.getLast? = some '\n' ∨ before.getLast? = some '\r') ∧
    src.drop before.length = w ++ rest ∧
    (∀ c ∈ w, c = ' ' ∨ c = '\t' ∨ c = '\x0c' ∨ c = '\x0b' ∨ c = '\r') ∧
    (∀ c, rest.head? = some c →
      ¬ (c = ' ' ∨ c = '\t' ∨ c = '\x0c' ∨ c = '\x0b' ∨ c = '\r'))

/-- A text with the indentation `w` added after each of its newlines, written byte by
byte: what an indented insertion is said to hold. -/
def indentAfterNewlines (w : Text) : Text → Text
  | [] => []
  | c :: cs =>
    if c = '\n' then '\n' :: (w ++ indentAfterNewlines w cs)
    else c :: indentAfterNewlines w cs

/-- The offset and text of a pending edit, without its ordinal. -/
def PendingEdit.key (e : PendingEdit) : Nat × Text := (e.offset, e.text)

/-- The submissions at one offset, in submission order. -/
def submissionsAt (subs : List (Nat × Text)) (p : Nat) : List (Nat × Text) :=
  subs.filter (fun s => s.1 == p)


/-! # Theorems

## The edit buffer -/

theorem sortEdits_perm (l : List PendingEdit) : (sortEdits l).Perm l :=
  List.perm_insertionSort PendingEdit.le l

theorem sortEdits_sorted (l : List PendingEdit) : (sortEdits l).Pairwise PendingEdit.le := by
  have htot : IsTotal PendingEdit PendingEdit.le := ⟨fun a b => by
    unfold PendingEdit.le; omega⟩
  have htr : IsTrans PendingEdit PendingEdit.le := ⟨fun a b c => by
    unfold PendingEdit.le; omega⟩
  exact List.sorted_insertionSort PendingEdit.le l

theorem sortEdits_offsets (l : List PendingEdit) :
    (sortEdits l).Pairwise (fun a b => a.offset ≤ b.offset) :=
  (sortEdits_sorted l).imp (fun {a b} h => by unfold PendingEdit.le at h; omega)

theorem mem_sortEdits {l : List PendingEdit} {e : PendingEdit} : e ∈ sortEdits l ↔ e ∈ l :=
  (sortEdits_perm l).mem_iff

theorem emit_length (src : Text) : ∀ (es : List PendingEdit) (cur : Nat),
    es.Pairwise (fun a b => a.offset ≤ b.offset) →
    (∀ e ∈ es, cur ≤ e.offset ∧ e.offset ≤ src.length) →
    (emit src cur es).length = (src.length - cur) + insertedLength es
  | [], cur, _, _ => by simp [emit, insertedLength]
  | e :: es, cur, hs, hr => by
    have hcur := hr e (List.mem_cons_self _ _)
    rw [List.pairwise_cons] at hs
    have ih := emit_length src es e.offset hs.2 (fun f hf =>
      ⟨hs.1 f hf, (hr f (List.mem_cons_of_mem _ hf)).2⟩)
    simp only [emit, List.length_append, List.length_take, List.length_drop, ih, insertedLength,
      List.map_cons, List.sum_cons]
    omega

theorem deleteInserted_emit (src : Text) : ∀ (es : List PendingEdit) (cur : Nat) (pre : Text),
    pre.length = cur →
    es.Pairwise (fun a b => a.offset ≤ b.offset) →
    (∀ e ∈ es, cur ≤ e.offset ∧ e.offset ≤ src.length) →
    deleteInserted (pre ++ emit src cur es) es = some (pre ++ src.drop cur)
  | [], cur, pre, _, _, _ => by simp [emit, deleteInserted]
  | e :: es, cur, pre, hpre, hs, hr => by
    have hcur := hr e (List.mem_cons_self _ _)
    rw [List.pairwise_cons] at hs
    have hseg : (pre ++ (src.drop cur).take (e.offset - cur)).length = e.offset := by
      simp only [List.length_append, List.length_take, List.length_drop]; omega
    have ih := deleteInserted_emit src es e.offset (pre ++ (src.drop cur).take (e.offset - cur))
      hseg hs.2 (fun f hf => ⟨hs.1 f hf, (hr f (List.mem_cons_of_mem _ hf)).2⟩)
    have hout : pre ++ emit src cur (e :: es) =
        (pre ++ (src.drop cur).take (e.offset - cur)) ++ (e.text ++ emit src e.offset es) := by
      simp [emit, List.append_assoc]
    have hdel : deleteText (pre ++ emit src cur (e :: es)) e =
        some ((pre ++ (src.drop cur).take (e.offset - cur)) ++ emit src e.offset es) := by
      rw [hout]
      unfold deleteText
      rw [List.drop_left' hseg, List.take_left' rfl, if_pos rfl, List.take_left' hseg]
      have : e.offset + e.text.length =
          (pre ++ (src.drop cur).take (e.offset - cur) ++ e.text).length := by
        rw [List.length_append, hseg]
      rw [← List.append_assoc, this, List.drop_left]
    have hrest : (src.drop cur).take (e.offset - cur) ++ src.drop e.offset = src.drop cur := by
      have h2 : src.drop e.offset = (src.drop cur).drop (e.offset - cur) := by
        rw [List.drop_drop]; congr 1; omega
      rw [h2, List.take_append_drop]
    rw [deleteInserted, hdel]
    show deleteInserted _ es = _
    rw [ih, List.append_assoc, hrest]

theorem render_ok_of_inRange (src : Text) (b : EditBuffer)
    (h : ∀ e ∈ b.edits, e.offset ≤ src.length) :
    render src b = .ok (emit src 0 (sortEdits b.edits)) := by
  have hnone : (sortEdits b.edits).find? (fun e => decide (src.length < e.offset)) = none := by
    rw [List.find?_eq_none]
    intro e he
    have := h e (mem_sortEdits.mp he)
    simp; omega
  simp [render, hnone]

theorem insertedLength_perm {l₁ l₂ : List PendingEdit} (h : l₁.Perm l₂) :
    insertedLength l₁ = insertedLength l₂ :=
  (h.map _).sum_eq

/-- Claim C4: rendering only adds text. For every rewriter state whose pending edits all
lie within `[0, length of the source]`, `EndSourceFileAction` writes an output such
that deleting the inserted texts from it (each found at its offset, in render
order) gives back the original source, the output's length is the original length
plus the total length of the inserted texts, and with no pending edit the output is
the original source. -/
theorem C4_render_only_adds_text (R : Rewriter)
    (h : ∀ e ∈ R.buffer.edits, e.offset ≤ R.source.length) :
    ∃ out, MyFrontendAction.EndSourceFileAction R = .ok out ∧
      deleteInserted out (sortEdits R.buffer.edits) = some R.source ∧
      out.length = R.source.length + insertedLength R.buffer.edits ∧
      (R.buffer.edits = [] → out = R.source) := by
  have hr : ∀ e ∈ sortEdits R.buffer.edits, 0 ≤ e.offset ∧ e.offset ≤ R.source.length :=
    fun e he => ⟨Nat.zero_le _, h e (mem_sortEdits.mp he)⟩
  refine ⟨emit R.source 0 (sortEdits R.buffer.edits), ?_, ?_, ?_, ?_⟩
  · exact render_ok_of_inRange R.source R.buffer h
  · have := deleteInserted_emit R.source (sortEdits R.buffer.edits) 0 [] rfl
      (sortEdits_offsets _) hr
    simpa using this
  · rw [emit_length R.source _ 0 (sortEdits_offsets _) hr,
      insertedLength_perm (sortEdits_perm _)]
    simp
  · intro he
    simp [he, sortEdits, emit]

/-- The hypotheses of C4 at a concrete rewriter state. -/
theorem C4_witness :
    (∀ e ∈ (submitAll [(5, "A".toList), (2, "C".toList)]).edits,
      e.offset ≤ "0123456789".toList.length) ∧
    ∃ out, MyFrontendAction.EndSourceFileAction
        ⟨"0123456789".toList, submitAll [(5, "A".toList), (2, "C".toList)]⟩ = .ok out ∧
      deleteInserted out (sortEdits (submitAll [(5, "A".toList), (2, "C".toList)]).edits)
        = some "0123456789".toList ∧
      out.length = "0123456789".toList.length
        + insertedLength (submitAll [(5, "A".toList), (2, "C".toList)]).edits ∧
      ((submitAll [(5, "A".toList), (2, "C".toList)]).edits = [] → out = "0123456789".toList) :=
  ⟨by decide,
   C4_render_only_adds_text ⟨"0123456789".toList, submitAll [(5, "A".toList), (2, "C".toList)]⟩
    (by decide)⟩

theorem insertedText_of_no_newline (src : Text) (p : Nat) (A : Text) (ind : Bool)
    (h : '\n' ∉ A) : insertedText src p A ind = A := by
  simp [insertedText, h]

theorem sortEdits_pair (a b : PendingEdit) (h : PendingEdit.le a b) :
    sortEdits [a, b] = [a, b] := by
  simp [sortEdits, List.insertionSort, List.orderedInsert, h]

/-! ### Indentation -/

theorem isWhitespaceExceptNL_iff (c : Char) :
    isWhitespaceExceptNL c = true ↔
      (c = ' ' ∨ c = '\t' ∨ c = '\x0c' ∨ c = '\x0b' ∨ c = '\r') := by
  simp [isWhitespaceExceptNL, or_assoc]

theorem indentSpace_isLineIndent (src : Text) (p : Nat) (hp : p ≤ src.length) :
    IsLineIndent src p (indentSpace src p) := by
  have hsplit := List.takeWhile_append_dropWhile (fun c => c != '\n' && c != '\r')
    (src.take p).reverse
  have hlen : ((src.take p).reverse.dropWhile (fun c => c != '\n' && c != '\r')).reverse.length
      = lineStart src p := by
    have h1 := congrArg List.length hsplit
    simp only [List.length_append, List.length_reverse, List.length_take] at h1
    simp only [List.length_reverse, lineStart]
    omega
  refine ⟨((src.take p).reverse.dropWhile (fun c => c != '\n' && c != '\r')).reverse,
    ((src.take p).reverse.takeWhile (fun c => c != '\n' && c != '\r')).reverse,
    (src.drop (lineStart src p)).dropWhile isWhitespaceExceptNL, ?_, ?_, ?_, ?_, ?_, ?_⟩
  · rw [← List.reverse_append, hsplit, List.reverse_reverse]
  · intro c hc
    have := List.mem_takeWhile_imp (List.mem_reverse.mp hc)
    simpa using this
  · have hd := List.head?_dropWhile_not (fun c => c != '\n' && c != '\r') (src.take p).reverse
    rw [List.getLast?_reverse]
    cases hh : ((src.take p).reverse.dropWhile (fun c => c != '\n' && c != '\r')) with
    | nil => left; rfl
    | cons a l =>
      right
      rw [hh] at hd
      simp only [List.head?_cons] at hd
      have : a = '\n' ∨ a = '\r' := by
        by_contra hne
        simp only [not_or] at hne
        simp [hne.1, hne.2] at hd
      rcases this with h | h <;> simp [h]
  · rw [hlen, indentSpace, List.takeWhile_append_dropWhile]
  · intro c hc
    exact (isWhitespaceExceptNL_iff c).mp (List.mem_takeWhile_imp hc)
  · intro c hc
    have hd := List.head?_dropWhile_not isWhitespaceExceptNL (src.drop (lineStart src p))
    rw [hc] at hd
    intro hw
    have hd2 : isWhitespaceExceptNL c = false := hd
    rw [(isWhitespaceExceptNL_iff c).mpr hw] at hd2
    exact Bool.noConfusion hd2

theorem splitLines_ne_nil : ∀ A : Text, splitLines A ≠ []
  | [] => by simp [splitLines]
  | c :: cs => by
    by_cases h : c = '\n'
    · simp [splitLines, h]
    · cases hs : splitLines cs <;> simp [splitLines, h, hs]

theorem joinIndented_cons_cons (w : Text) (c : Char) (l : Text) (ls : List Text) :
    joinIndented w ((c :: l) :: ls) = c :: joinIndented w (l :: ls) := by
  cases ls <;> simp [joinIndented]

theorem joinIndented_splitLines (w : Text) : ∀ A : Text,
    joinIndented w (splitLines A) = indentAfterNewlines w A
  | [] => by simp [splitLines, joinIndented, indentAfterNewlines]
  | c :: cs => by
    have ih := joinIndented_splitLines w cs
    by_cases h : c = '\n'
    · cases hs : splitLines cs with
      | nil => exact absurd hs (splitLines_ne_nil cs)
      | cons l ls =>
        rw [hs] at ih
        simp [splitLines, h, hs, joinIndented, indentAfterNewlines, ih]
    · cases hs : splitLines cs with
      | nil => exact absurd hs (splitLines_ne_nil cs)
      | cons l ls =>
        rw [hs] at ih
        simp only [splitLines, h, if_false, hs, joinIndented_cons_cons, ih,
          indentAfterNewlines]

theorem indentAfterNewlines_of_no_newline (w : Text) : ∀ A : Text, '\n' ∉ A →
    indentAfterNewlines w A = A
  | [], _ => rfl
  | c :: cs, h => by
    have hc : c ≠ '\n' := fun hc => h (by simp [hc])
    have hcs : '\n' ∉ cs := fun hcs => h (List.mem_cons_of_mem _ hcs)
    simp [indentAfterNewlines, hc, indentAfterNewlines_of_no_newline w cs hcs]

theorem insertedText_true (src : Text) (p : Nat) (A : Text) :
    insertedText src p A true = indentAfterNewlines (indentSpace src p) A := by
  by_cases h : '\n' ∈ A
  · simp [insertedText, h, indentLines, joinIndented_splitLines]
  · rw [insertedText_of_no_newline src p A true h, indentAfterNewlines_of_no_newline _ A h]

theorem render_two_insertions (src : Text) (p : Nat) (A B : Text) (ind : Bool)
    (hp : p ≤ src.length) :
    MyFrontendAction.EndSourceFileAction
        (((MyFrontendAction.CreateASTConsumer src).InsertText p A true ind).InsertText
          p B true ind)
      = .ok (src.take p ++ insertedText src p A ind ++ insertedText src p B ind ++ src.drop p) := by
  simp only [MyFrontendAction.EndSourceFileAction, render, Rewriter.InsertText,
    MyFrontendAction.CreateASTConsumer, EditBuffer.insert, EditBuffer.empty, if_true,
    List.nil_append, List.cons_append]
  rw [sortEdits_pair ⟨p, insertedText src p A ind, 0⟩ ⟨p, insertedText src p B ind, 0 + 1⟩
    (Or.inr ⟨rfl, by simp⟩)]
  simp [emit, List.find?, Nat.not_lt.mpr hp]

/-- Claim C7, as amended: two insertions at one offset keep their order. On a fresh
rewriter, inserting `A` at `p` and then `B` at `p` the way the handlers do
(`InsertAfter` and `indentNewLines` both true) renders as the source up to `p`, then
the text held for `A`, then the text held for `B`, then the source from `p` on. The
text held for a string is the string with `w` added after each of its newlines,
where `w` is the leading whitespace of the source line containing `p`; it is the
string itself when the string has no newline. Without `indentNewLines` the output
is the source up to `p`, then `A`, then `B`, then the source from `p` on. -/
theorem C7_same_offset_keeps_order (src : Text) (p : Nat) (A B : Text)
    (hp : p ≤ src.length) :
    ∃ w, IsLineIndent src p w ∧
      MyFrontendAction.EndSourceFileAction
          (((MyFrontendAction.CreateASTConsumer src).InsertText p A true true).InsertText
            p B true true)
        = .ok (src.take p ++ indentAfterNewlines w A ++ indentAfterNewlines w B
            ++ src.drop p) ∧
      ('\n' ∉ A → indentAfterNewlines w A = A) ∧
      ('\n' ∉ B → indentAfterNewlines w B = B) ∧
      MyFrontendAction.EndSourceFileAction
          (((MyFrontendAction.CreateASTConsumer src).InsertText p A true false).InsertText
            p B true false)
        = .ok (src.take p ++ A ++ B ++ src.drop p) := by
  refine ⟨indentSpace src p, indentSpace_isLineIndent src p hp, ?_,
    indentAfterNewlines_of_no_newline _ A, indentAfterNewlines_of_no_newline _ B, ?_⟩
  · rw [render_two_insertions src p A B true hp, insertedText_true, insertedText_true]
  · rw [render_two_insertions src p A B false hp]
    simp [insertedText]

/-- Offset 5, "A" then "B". -/
theorem C7_witness :
    5 ≤ "0123456789".toList.length ∧
    MyFrontendAction.EndSourceFileAction
        (((MyFrontendAction.CreateASTConsumer "0123456789".toList).InsertText 5 "A".toList
          true true).InsertText 5 "B".toList true true)
      = .ok "01234AB56789".toList :=
  ⟨by decide, by
    obtain ⟨w, _, h, hA, hB, _⟩ :=
      C7_same_offset_keeps_order "0123456789".toList 5 "A".toList "B".toList (by decide)
    rw [hA (by decide), hB (by decide)] at h
    exact h.trans (by rfl)⟩

/-- Against C7 as stated: at offset 2 of a line indented by two blanks, "a" with a
newline and then "b", inserted the way the handlers do, render with the indentation
between them; the first text is not immediately before the second. -/
theorem C7_counterexample :
    2 ≤ "  xy".toList.length ∧
    MyFrontendAction.EndSourceFileAction
        (((MyFrontendAction.CreateASTConsumer "  xy".toList).InsertText 2 "a\n".toList
          true true).InsertText 2 "b".toList true true)
      = .ok "  a\n  bxy".toList ∧
    MyFrontendAction.EndSourceFileAction
        (((MyFrontendAction.CreateASTConsumer "  xy".toList).InsertText 2 "a\n".toList
          true true).InsertText 2 "b".toList true true)
      ≠ .ok ("  xy".toList.take 2 ++ "a\n".toList ++ "b".toList ++ "  xy".toList.drop 2) := by
  have h : MyFrontendAction.EndSourceFileAction
        (((MyFrontendAction.CreateASTConsumer "  xy".toList).InsertText 2 "a\n".toList
          true true).InsertText 2 "b".toList true true)
      = .ok "  a\n  bxy".toList := by rfl
  refine ⟨by decide, h, ?_⟩
  rw [h]
  exact fun h2 => absurd (Except.ok.inj h2) (by decide)

/-! ### Render order and submission order -/

theorem emit_congr (src : Text) : ∀ (l₁ l₂ : List PendingEdit) (cur : Nat),
    l₁.map PendingEdit.key = l₂.map PendingEdit.key → emit src cur l₁ = emit src cur l₂
  | [], [], _, _ => rfl
  | [], _ :: _, _, h => by simp at h
  | _ :: _, [], _, h => by simp at h
  | a :: l₁, b :: l₂, cur, h => by
    simp only [List.map_cons, List.cons.injEq, PendingEdit.key, Prod.mk.injEq] at h
    simp only [emit, h.1.1, h.1.2, emit_congr src l₁ l₂ b.offset h.2]

theorem find_congr (P : Nat → Bool) : ∀ (l₁ l₂ : List PendingEdit),
    l₁.map PendingEdit.key = l₂.map PendingEdit.key →
    (l₁.find? (fun e => P e.offset)).map (fun e => e.offset)
      = (l₂.find? (fun e => P e.offset)).map (fun e => e.offset)
  | [], [], _ => rfl
  | [], _ :: _, h => by simp at h
  | _ :: _, [], h => by simp at h
  | a :: l₁, b :: l₂, h => by
    simp only [List.map_cons, List.cons.injEq, PendingEdit.key, Prod.mk.injEq] at h
    simp only [List.find?, h.1.1]
    cases P b.offset
    · exact find_congr P l₁ l₂ h.2
    · simp [h.1.1]

theorem render_congr (src : Text) (b₁ b₂ : EditBuffer)
    (h : (sortEdits b₁.edits).map PendingEdit.key = (sortEdits b₂.edits).map PendingEdit.key) :
    render src b₁ = render src b₂ := by
  have hf := find_congr (fun o => decide (src.length < o)) _ _ h
  have he := emit_congr src _ _ 0 h
  unfold render
  revert hf
  cases (sortEdits b₁.edits).find? (fun e => decide (src.length < e.offset)) <;>
    cases (sortEdits b₂.edits).find? (fun e => decide (src.length < e.offset)) <;>
    simp [he]

/-- The invariant of a buffer filled through `insert`: ordinals grow along the list and
stay below the next ordinal. -/
theorem insert_invariant (b : EditBuffer) (o : Nat) (t : Text)
    (h₁ : b.edits.Pairwise (fun x y => x.ordinal < y.ordinal))
    (h₂ : ∀ e ∈ b.edits, e.ordinal < b.next) :
    (b.insert o t).edits.Pairwise (fun x y => x.ordinal < y.ordinal) ∧
    (∀ e ∈ (b.insert o t).edits, e.ordinal < (b.insert o t).next) ∧
    (b.insert o t).edits.map PendingEdit.key = b.edits.map PendingEdit.key ++ [(o, t)] := by
  refine ⟨?_, ?_, ?_⟩
  · simp only [EditBuffer.insert, List.pairwise_append, h₁, List.pairwise_singleton,
      List.mem_singleton, true_and]
    intro a ha c hc
    subst hc
    exact h₂ a ha
  · intro e he
    simp only [EditBuffer.insert, List.mem_append, List.mem_singleton] at he ⊢
    rcases he with he | rfl
    · exact Nat.lt_succ_of_lt (h₂ e he)
    · exact Nat.lt_succ_self _
  · simp [EditBuffer.insert, PendingEdit.key]

theorem foldl_insert_invariant : ∀ (subs : List (Nat × Text)) (b : EditBuffer),
    b.edits.Pairwise (fun x y => x.ordinal < y.ordinal) →
    (∀ e ∈ b.edits, e.ordinal < b.next) →
    (subs.foldl (fun b s => b.insert s.1 s.2) b).edits.Pairwise
        (fun x y => x.ordinal < y.ordinal) ∧
    (subs.foldl (fun b s => b.insert s.1 s.2) b).edits.map PendingEdit.key
        = b.edits.map PendingEdit.key ++ subs
  | [], b, h₁, _ => by simp [h₁]
  | s :: subs, b, h₁, h₂ => by
    obtain ⟨i₁, i₂, i₃⟩ := insert_invariant b s.1 s.2 h₁ h₂
    obtain ⟨j₁, j₂⟩ := foldl_insert_invariant subs (b.insert s.1 s.2) i₁ i₂
    refine ⟨j₁, ?_⟩
    rw [List.foldl_cons, j₂, i₃]
    simp

theorem submitAll_spec (subs : List (Nat × Text)) :
    (submitAll subs).edits.Pairwise (fun x y => x.ordinal < y.ordinal) ∧
    (submitAll subs).edits.map PendingEdit.key = subs := by
  have := foldl_insert_invariant subs EditBuffer.empty (by simp [EditBuffer.empty])
    (by simp [EditBuffer.empty])
  simpa [submitAll, EditBuffer.empty] using this

/-- Sorting keeps, at every offset, the order of a list whose ordinals grow. -/
theorem sortEdits_filter (l : List PendingEdit)
    (h : l.Pairwise (fun x y => x.ordinal < y.ordinal)) (p : Nat) :
    (sortEdits l).filter (fun e => e.offset == p) = l.filter (fun e => e.offset == p) := by
  have hne : l.Pairwise (fun x y => x.ordinal ≠ y.ordinal) :=
    h.imp (fun {a b} hab => Nat.ne_of_lt hab)
  have hne' : (sortEdits l).Pairwise (fun x y => x.ordinal ≠ y.ordinal) :=
    (sortEdits_perm l).symm.pairwise hne (fun {x y} hxy => Ne.symm hxy)
  have hboth := (sortEdits_sorted l).and hne'
  have hfil : ((sortEdits l).filter (fun e => e.offset == p)).Pairwise
      (fun x y => x.ordinal < y.ordinal) := by
    refine List.Pairwise.imp_of_mem ?_ (hboth.sublist (List.filter_sublist _))
    intro a b ha hb hab
    simp only [List.mem_filter, beq_iff_eq] at ha hb
    have h1 := hab.1
    have h2 := hab.2
    unfold PendingEdit.le at h1
    omega
  have hfil' : (l.filter (fun e => e.offset == p)).Pairwise
      (fun x y => x.ordinal < y.ordinal) := h.sublist (List.filter_sublist _)
  exact List.Perm.eq_of_sorted (fun a b _ _ hab hba => absurd hab (Nat.lt_asymm hba)) hfil hfil'
    ((sortEdits_perm l).filter _)

/-- A list sorted by offset is determined by its sublists at each offset. -/
theorem eq_of_filters : ∀ (l₁ l₂ : List (Nat × Text)),
    l₁.Pairwise (fun a b => a.1 ≤ b.1) → l₂.Pairwise (fun a b => a.1 ≤ b.1) →
    (∀ p, l₁.filter (fun s => s.1 == p) = l₂.filter (fun s => s.1 == p)) → l₁ = l₂
  | [], [], _, _, _ => rfl
  | [], b :: l₂, _, _, h => by have := h b.1; simp at this
  | a :: l₁, [], _, _, h => by have := h a.1; simp at this
  | a :: l₁, b :: l₂, h₁, h₂, h => by
    rw [List.pairwise_cons] at h₁ h₂
    have hab : a.1 = b.1 := by
      rcases Nat.lt_trichotomy a.1 b.1 with hlt | heq | hgt
      · exfalso
        have := h a.1
        have hb : ((b :: l₂).filter (fun s => s.1 == a.1)) = [] := by
          rw [List.filter_eq_nil_iff]
          intro x hx
          rcases List.mem_cons.mp hx with rfl | hx
          · simp; omega
          · have := h₂.1 x hx
            simp; omega
        rw [hb] at this
        simp at this
      · exact heq
      · exfalso
        have := h b.1
        have ha : ((a :: l₁).filter (fun s => s.1 == b.1)) = [] := by
          rw [List.filter_eq_nil_iff]
          intro x hx
          rcases List.mem_cons.mp hx with rfl | hx
          · simp; omega
          · have := h₁.1 x hx
            simp; omega
        rw [ha] at this
        simp at this
    have hhead := h a.1
    simp only [List.filter_cons, beq_self_eq_true, if_true, ← hab] at hhead
    rw [List.cons.injEq] at hhead
    have htail : l₁ = l₂ := by
      refine eq_of_filters l₁ l₂ h₁.2 h₂.2 (fun p => ?_)
      by_cases hp : a.1 = p
      · subst hp; exact hhead.2
      · have := h p
        have hb : ¬ b.1 = p := hab ▸ hp
        simpa [List.filter_cons, hp, hb] using this
    rw [hhead.1, htail]

theorem sortEdits_eq_of_perm (l₁ l₂ : List PendingEdit) (hperm : l₁.Perm l₂)
    (hord : l₁.Pairwise (fun x y => x.ordinal ≠ y.ordinal)) :
    sortEdits l₁ = sortEdits l₂ := by
  have hall : ∀ a ∈ l₁, ∀ b ∈ l₁, a.ordinal = b.ordinal → a = b := by
    intro a ha b hb hab
    by_contra hne
    exact List.Pairwise.forall (fun x y hxy => Ne.symm hxy) hord ha hb hne hab
  refine List.Perm.eq_of_sorted ?_ (sortEdits_sorted l₁) (sortEdits_sorted l₂)
    ((sortEdits_perm l₁).trans (hperm.trans (sortEdits_perm l₂).symm))
  intro a b ha hb hab hba
  have ha1 : a ∈ l₁ := mem_sortEdits.mp ha
  have hb1 : b ∈ l₁ := hperm.symm.subset (mem_sortEdits.mp hb)
  refine hall a ha1 b hb1 ?_
  unfold PendingEdit.le at hab hba
  omega

/-- Two submission orders that agree, at every offset, on the sequence of texts
submitted there render identically. -/
theorem render_submitAll_congr (src : Text) (subs₁ subs₂ : List (Nat × Text))
    (h : ∀ p, submissionsAt subs₁ p = submissionsAt subs₂ p) :
    render src (submitAll subs₁) = render src (submitAll subs₂) := by
  apply render_congr
  obtain ⟨o₁, k₁⟩ := submitAll_spec subs₁
  obtain ⟨o₂, k₂⟩ := submitAll_spec subs₂
  have hkey : ∀ (subs : List (Nat × Text)),
      (submitAll subs).edits.Pairwise (fun x y => x.ordinal < y.ordinal) →
      (submitAll subs).edits.map PendingEdit.key = subs → ∀ p,
      ((sortEdits (submitAll subs).edits).map PendingEdit.key).filter (fun s => s.1 == p)
        = submissionsAt subs p := by
    intro subs ho hk p
    rw [List.filter_map]
    have : ((fun s : Nat × Text => s.1 == p) ∘ PendingEdit.key)
        = (fun e : PendingEdit => e.offset == p) := rfl
    rw [this, sortEdits_filter _ ho p, ← this, ← List.filter_map, hk]
    rfl
  have hsorted : ∀ l : List PendingEdit,
      ((sortEdits l).map PendingEdit.key).Pairwise (fun a b => a.1 ≤ b.1) := fun l =>
    (sortEdits_offsets l).map PendingEdit.key (fun _ _ hab => hab)
  refine eq_of_filters _ _ (hsorted _) (hsorted _) (fun p => ?_)
  rw [hkey subs₁ o₁ k₁ p, hkey subs₂ o₂ k₂ p, h p]

/-- Claim C8: rendering does not depend on the order in which a fixed set of pending
edits reached the buffer. Two buffers holding the same pending edits (each with its
offset, text and sequence ordinal; ordinals pairwise distinct, as they are in every
buffer filled through `insert`) in any order render identically: the render order
is the same list, sorted by offset and then ordinal. -/
theorem C8_render_independent_of_storage_order (src : Text) (b₁ b₂ : EditBuffer)
    (hperm : b₁.edits.Perm b₂.edits)
    (hord : b₁.edits.Pairwise (fun x y => x.ordinal ≠ y.ordinal)) :
    render src b₁ = render src b₂ ∧
    sortEdits b₁.edits = sortEdits b₂.edits ∧
    (sortEdits b₁.edits).Pairwise
      (fun x y => x.offset < y.offset ∨ (x.offset = y.offset ∧ x.ordinal ≤ y.ordinal)) ∧
    (∀ subs : List (Nat × Text),
      (submitAll subs).edits.Pairwise (fun x y => x.ordinal ≠ y.ordinal)) := by
  have hs := sortEdits_eq_of_perm _ _ hperm hord
  refine ⟨render_congr src b₁ b₂ (by rw [hs]), hs, sortEdits_sorted _, fun subs => ?_⟩
  exact (submitAll_spec subs).1.imp (fun {a b} hab => Nat.ne_of_lt hab)

/-- Three pending edits, two of them at offset 5, stored in two different orders. -/
theorem C8_witness :
    List.Perm [(⟨5, "A".toList, 0⟩ : PendingEdit), ⟨2, "C".toList, 1⟩, ⟨5, "B".toList, 2⟩]
      [⟨5, "B".toList, 2⟩, ⟨5, "A".toList, 0⟩, ⟨2, "C".toList, 1⟩] ∧
    render "0123456789".toList
        ⟨[⟨5, "A".toList, 0⟩, ⟨2, "C".toList, 1⟩, ⟨5, "B".toList, 2⟩], 3⟩
      = .ok "01C234AB56789".toList ∧
    render "0123456789".toList
        ⟨[⟨5, "B".toList, 2⟩, ⟨5, "A".toList, 0⟩, ⟨2, "C".toList, 1⟩], 3⟩
      = .ok "01C234AB56789".toList := by
  have hperm : List.Perm
      [(⟨5, "A".toList, 0⟩ : PendingEdit), ⟨2, "C".toList, 1⟩, ⟨5, "B".toList, 2⟩]
      [⟨5, "B".toList, 2⟩, ⟨5, "A".toList, 0⟩, ⟨2, "C".toList, 1⟩] := by decide
  have hc := C8_render_independent_of_storage_order "0123456789".toList
    ⟨[⟨5, "A".toList, 0⟩, ⟨2, "C".toList, 1⟩, ⟨5, "B".toList, 2⟩], 3⟩
    ⟨[⟨5, "B".toList, 2⟩, ⟨5, "A".toList, 0⟩, ⟨2, "C".toList, 1⟩], 3⟩ hperm (by simp)
  have h1 : render "0123456789".toList
        ⟨[⟨5, "A".toList, 0⟩, ⟨2, "C".toList, 1⟩, ⟨5, "B".toList, 2⟩], 3⟩
      = .ok "01C234AB56789".toList := by rfl
  exact ⟨hperm, h1, hc.1 ▸ h1⟩

/-! ### Merging -/

theorem collapseDuplicates_keeps : ∀ (es : List PendingEdit) (e : PendingEdit), e ∈ es →
    ∃ f ∈ collapseDuplicates es, f.offset = e.offset ∧ f.text = e.text
  | [], _, h => by simp at h
  | a :: es, e, h => by
    by_cases hae : e.offset = a.offset ∧ e.text = a.text
    · exact ⟨a, by simp [collapseDuplicates], hae.1.symm, hae.2.symm⟩
    · have hmem : e ∈ es := by
        rcases List.mem_cons.mp h with rfl | h
        · exact absurd ⟨rfl, rfl⟩ hae
        · exact h
      obtain ⟨f, hf, ho, ht⟩ := collapseDuplicates_keeps es e hmem
      refine ⟨f, ?_, ho, ht⟩
      simp only [collapseDuplicates, List.mem_cons, List.mem_filter]
      right
      refine ⟨hf, ?_⟩
      simp only [Bool.not_eq_true', Bool.and_eq_false_iff, beq_eq_false_iff_ne, ne_eq]
      rw [ho, ht]
      by_cases h1 : e.offset = a.offset
      · right; exact fun h2 => hae ⟨h1, h2⟩
      · left; exact h1

theorem mem_groupTexts (es : List PendingEdit) (e : PendingEdit) (h : e ∈ es) :
    e.text ∈ groupTexts es e.offset := by
  obtain ⟨f, hf, ho, ht⟩ := collapseDuplicates_keeps es e h
  simp only [groupTexts, List.mem_map, List.mem_filter, beq_iff_eq]
  exact ⟨f, ⟨hf, ho⟩, ht⟩

theorem one_lt_length_of_two_mem {α : Type} (l : List α) (x y : α) (hx : x ∈ l) (hy : y ∈ l)
    (hne : x ≠ y) : 1 < l.length := by
  match l, hx, hy with
  | [a], hx, hy =>
    simp only [List.mem_singleton] at hx hy
    exact absurd (hx.trans hy.symm) hne
  | _ :: _ :: _, _, _ => simp

/-- Claim C9: merging edit sets that contain `(p, X)` and `(p, Y)` with `X ≠ Y` fails:
the result is a conflict report, never an edit set, and the report names `p` with
both `X` and `Y` among its competing texts. -/
theorem C9_merge_reports_conflict (editSets : List EditSet) (p : Nat) (X Y : Text)
    (ordX ordY : Nat) (hne : X ≠ Y)
    (hX : (⟨p, X, ordX⟩ : PendingEdit) ∈ editSets.flatten)
    (hY : (⟨p, Y, ordY⟩ : PendingEdit) ∈ editSets.flatten) :
    ∃ report, merge editSets = .error report ∧
      ∃ c ∈ report.conflicts, c.1 = p ∧ X ∈ c.2 ∧ Y ∈ c.2 := by
  have hXg := mem_groupTexts _ _ hX
  have hYg := mem_groupTexts _ _ hY
  have hlen := one_lt_length_of_two_mem _ X Y hXg hYg hne
  have hp : p ∈ (groupOffsets editSets.flatten).filter
      (fun q => decide (1 < (groupTexts editSets.flatten q).length)) := by
    simp only [List.mem_filter, groupOffsets, List.mem_dedup, List.mem_map, decide_eq_true_eq]
    exact ⟨⟨_, hX, rfl⟩, hlen⟩
  have hbad : (groupOffsets editSets.flatten).filter
      (fun q => decide (1 < (groupTexts editSets.flatten q).length)) ≠ [] :=
    List.ne_nil_of_mem hp
  refine ⟨⟨((groupOffsets editSets.flatten).filter
      (fun q => decide (1 < (groupTexts editSets.flatten q).length))).map
        (fun q => (q, groupTexts editSets.flatten q))⟩, ?_, ?_⟩
  · simp only [merge, if_neg hbad]
  · exact ⟨(p, groupTexts editSets.flatten p), List.mem_map.mpr ⟨p, hp, rfl⟩, rfl, hXg, hYg⟩

/-- Offset 10, "X" and "Y". -/
theorem C9_witness :
    "X".toList ≠ "Y".toList ∧
    ∃ report, merge [[⟨10, "X".toList, 0⟩], [⟨10, "Y".toList, 0⟩]] = .error report ∧
      ∃ c ∈ report.conflicts, c.1 = 10 ∧ "X".toList ∈ c.2 ∧ "Y".toList ∈ c.2 :=
  ⟨by decide, C9_merge_reports_conflict [[⟨10, "X".toList, 0⟩], [⟨10, "Y".toList, 0⟩]] 10
    "X".toList "Y".toList 0 0 (by decide) (by decide) (by decide)⟩

example : merge [[⟨10, "X".toList, 0⟩], [⟨10, "Y".toList, 0⟩]] = .error ⟨[(10, ["X".toList, "Y".toList])]⟩ := by rfl
example : merge [[⟨10, "X".toList, 0⟩], [⟨10, "X".toList, 4⟩]] = .ok [⟨10, "X".toList, 0⟩] := by rfl

/-! ### The conditional rule -/

theorem ifStmtMatcher_ifStmt (l : Nat) (c : Expr) (t : Stmt) (e : Option Stmt) :
    ifStmtMatcher (.IfStmt l c t e) ⟨[]⟩
      = some ⟨[("ifStmt", DynTypedNode.stmt (.IfStmt l c t e))]⟩ := by
  simp [ifStmtMatcher, Matcher.bind, ifStmt, allOf, BoundNodes.setBinding,
    AsDynTypedNode.create]

theorem ifStmtMatcher_of_not_if (n : Stmt) (h : n.isIfStmt = false) :
    ifStmtMatcher n ⟨[]⟩ = none := by
  cases n <;> simp_all [ifStmtMatcher, Matcher.bind, ifStmt, Stmt.isIfStmt]

theorem ifStmtMatcher_some (n : Stmt) (b : BoundNodes) (h : ifStmtMatcher n ⟨[]⟩ = some b) :
    ∃ l c t e, n = .IfStmt l c t e ∧ b = ⟨[("ifStmt", DynTypedNode.stmt n)]⟩ := by
  cases n with
  | IfStmt l c t e =>
    rw [ifStmtMatcher_ifStmt] at h
    exact ⟨l, c, t, e, rfl, (Option.some.inj h).symm⟩
  | _ => simp [ifStmtMatcher, Matcher.bind, ifStmt] at h

theorem IfStmtHandler_run_bound (l : Nat) (c : Expr) (t : Stmt) (e : Option Stmt)
    (R : Rewriter) :
    IfStmtHandler.run ⟨⟨[("ifStmt", DynTypedNode.stmt (.IfStmt l c t e))]⟩⟩ R
      = some (applyInsertions R (ifInsertions t e)) := by
  cases e <;>
    simp [IfStmtHandler.run, BoundNodes.getNodeAs_IfStmt, BoundNodes.getNode, IfStmt.getThen,
      IfStmt.getElse, applyInsertions, ifInsertions, ifMarker, elseMarker]

theorem applyInsertions_buffer : ∀ (ins : List (Nat × Text)) (R : Rewriter),
    (applyInsertions R ins).source = R.source ∧
    (applyInsertions R ins).buffer.edits.map (fun e => e.offset)
      = R.buffer.edits.map (fun e => e.offset) ++ ins.map (fun i => i.1)
  | [], R => by simp [applyInsertions]
  | i :: ins, R => by
    have ih := applyInsertions_buffer ins (R.InsertText i.1 i.2 true true)
    simp only [applyInsertions, List.foldl_cons] at ih ⊢
    refine ⟨ih.1, ?_⟩
    rw [ih.2]
    simp [Rewriter.InsertText, EditBuffer.insert]

set_option maxRecDepth 100000 in
theorem sample_if_run :
    (IfStmtHandler.run ⟨⟨[("ifStmt", DynTypedNode.stmt fooIf)]⟩⟩
        (MyFrontendAction.CreateASTConsumer sampleSource)).map
          (fun R1 => R1.buffer.edits.map (fun e => e.offset)) = some [43] ∧
    sampleSource[43]? = some '\x7b' :=
  ⟨by rfl, by rfl⟩

/-- Claim C1: for every node the 'ifStmt' rule matches, the node is a conditional and
`IfStmtHandler::run` leaves the rewriter exactly as these insertion requests do, in
this order and nothing else: the marker "// the 'if' part\n" at the start offset of
the then-branch, then, exactly when there is an else-branch, the marker
"// the 'else' part\n" at the start offset of the else-branch; the buffer gains
pending edits at exactly those offsets. For the conditional of the sample input (no
else) the buffer ends with one pending edit, at offset 43, where the source has the
then-branch's opening brace. -/
theorem C1_ifStmt_handler_insertions (n : Stmt) (b : BoundNodes) (R : Rewriter)
    (h : ifStmtMatcher n ⟨[]⟩ = some b) :
    (∃ ifLoc cond thenStmt elseStmt, n = .IfStmt ifLoc cond thenStmt elseStmt ∧
      IfStmtHandler.run ⟨b⟩ R = some (applyInsertions R (ifInsertions thenStmt elseStmt)) ∧
      ifInsertions thenStmt elseStmt =
        (thenStmt.getLocStart, "// the 'if' part\n".toList) ::
          (match elseStmt with
           | some e => [(e.getLocStart, "// the 'else' part\n".toList)]
           | none => []) ∧
      ((ifInsertions thenStmt elseStmt).length = 2 ↔ elseStmt.isSome) ∧
      ((ifInsertions thenStmt elseStmt).length = 1 ↔ elseStmt = none) ∧
      (applyInsertions R (ifInsertions thenStmt elseStmt)).buffer.edits.map (fun e => e.offset)
        = R.buffer.edits.map (fun e => e.offset)
          ++ (ifInsertions thenStmt elseStmt).map (fun i => i.1)) ∧
    (IfStmtHandler.run ⟨⟨[("ifStmt", DynTypedNode.stmt fooIf)]⟩⟩
        (MyFrontendAction.CreateASTConsumer sampleSource)).map
          (fun R1 => R1.buffer.edits.map (fun e => e.offset)) = some [43] ∧
    sampleSource[43]? = some '\x7b' := by
  obtain ⟨l, c, t, e, hn, hb⟩ := ifStmtMatcher_some n b h
  subst hn
  subst hb
  refine ⟨⟨l, c, t, e, rfl, IfStmtHandler_run_bound l c t e R, rfl, ?_, ?_,
    (applyInsertions_buffer _ R).2⟩, sample_if_run.1, sample_if_run.2⟩ <;>
    cases e <;> simp [ifInsertions]

/-- The conditional of the sample input satisfies the hypothesis of C1. -/
theorem C1_witness :
    ifStmtMatcher fooIf ⟨[]⟩ = some ⟨[("ifStmt", DynTypedNode.stmt fooIf)]⟩ ∧
    (IfStmtHandler.run ⟨⟨[("ifStmt", DynTypedNode.stmt fooIf)]⟩⟩
        (MyFrontendAction.CreateASTConsumer sampleSource)).map
          (fun R1 => R1.buffer.edits.map (fun e => e.offset)) = some [43] ∧
    sampleSource[43]? = some '\x7b' :=
  ⟨ifStmtMatcher_ifStmt _ _ _ _,
   (C1_ifStmt_handler_insertions fooIf _ (MyFrontendAction.CreateASTConsumer sampleSource)
    (ifStmtMatcher_ifStmt _ _ _ _)).2⟩

/-! ### The loop rule -/

/-- The bindings of a match of the loop rule. -/
theorem forLoopMatcher_match (forLoc declLoc litLoc : Nat) (litTy : QualType) (initVar : Decl)
    (opLoc : Nat) (incTy : QualType) (incOp : UnaryOperatorKind) (refLoc : Nat)
    (refTy : QualType) (incVar : Decl) (condTy : QualType) (lhs rhs : Expr) (lhsLoc : Nat)
    (lhsTy : QualType) (condVar : Decl) (body : Stmt)
    (hInitVar : initVar.isVarDecl = true)
    (hInit : initVar.init = some (.IntegerLiteral litLoc litTy 0))
    (hOp : incOp.getOpcodeStr = "++")
    (hIncVar : incVar.isVarDecl = true) (hIncTy : incVar.type.isIntegerType = true)
    (hLhs : lhs.IgnoreParenImpCasts = .DeclRefExpr lhsLoc lhsTy condVar)
    (hCondVar : condVar.isVarDecl = true) (hCondTy : condVar.type.isIntegerType = true)
    (hRhs : rhs.getType.isIntegerType = true) :
    forLoopMatcher
        (.ForStmt forLoc (some (.DeclStmt declLoc [initVar]))
          (some (.BinaryOperator condTy .LT lhs rhs))
          (some (.UnaryOperator opLoc incTy incOp (.DeclRefExpr refLoc refTy incVar))) body)
        ⟨[]⟩
      = some ⟨[("forLoop", DynTypedNode.stmt
          (.ForStmt forLoc (some (.DeclStmt declLoc [initVar]))
            (some (.BinaryOperator condTy .LT lhs rhs))
            (some (.UnaryOperator opLoc incTy incOp (.DeclRefExpr refLoc refTy incVar))) body)),
        ("condVarName", DynTypedNode.decl condVar),
        ("incVarName", DynTypedNode.decl incVar),
        ("initVarName", DynTypedNode.decl initVar)]⟩ := by
  simp [forLoopMatcher, Matcher.bind, forStmt, allOf, hasLoopInit, declStmt, hasSingleDecl,
    varDecl, hasInitializer, integerLiteral, equals, hasIncrement, unaryOperator,
    hasOperatorName, hasUnaryOperand, declRefExpr, to_, hasType, isInteger, hasCondition,
    binaryOperator, hasLHS, ignoringParenImpCasts, hasRHS, expr, BoundNodes.setBinding,
    AsDynTypedNode.create, HasType.getType, hInitVar, hInit, hOp, hIncVar, hIncTy, hLhs,
    hCondVar, hCondTy, hRhs, BinaryOperatorKind.getOpcodeStr]

theorem opcode_lt (op : BinaryOperatorKind) (h : op.getOpcodeStr = "<") : op = .LT := by
  cases op <;> first | rfl | (exfalso; revert h; decide)

theorem loopInit_some (init : Stmt) (b b1 : BoundNodes)
    (h : declStmt [hasSingleDecl
      ((varDecl [hasInitializer (integerLiteral [equals 0])]).bind "initVarName")] init b
        = some b1) :
    ∃ declLoc litLoc litTy initVar, init = .DeclStmt declLoc [initVar] ∧
      initVar.isVarDecl = true ∧ initVar.init = some (.IntegerLiteral litLoc litTy 0) ∧
      b1 = b.setBinding "initVarName" (DynTypedNode.decl initVar) := by
  cases init with
  | DeclStmt declLoc decls =>
    match decls, h with
    | [], h => simp [declStmt, allOf, hasSingleDecl] at h
    | _ :: _ :: _, h => simp [declStmt, allOf, hasSingleDecl] at h
    | [d], h =>
      by_cases hv : d.isVarDecl = true
      · rcases hi : d.init with _ | e
        · simp [declStmt, allOf, hasSingleDecl, Matcher.bind, varDecl, hasInitializer, hv, hi] at h
        · cases e with
          | IntegerLiteral litLoc litTy value =>
            by_cases hval : value = 0
            · subst hval
              refine ⟨declLoc, litLoc, litTy, d, rfl, hv, hi, ?_⟩
              simpa [declStmt, allOf, hasSingleDecl, Matcher.bind, varDecl, hasInitializer, hv,
                hi, integerLiteral, equals, AsDynTypedNode.create, eq_comm] using h
            · simp [declStmt, allOf, hasSingleDecl, Matcher.bind, varDecl, hasInitializer, hv,
                hi, integerLiteral, equals, hval] at h
          | _ =>
            simp [declStmt, allOf, hasSingleDecl, Matcher.bind, varDecl, hasInitializer, hv,
              hi, integerLiteral] at h
      · simp [declStmt, allOf, hasSingleDecl, Matcher.bind, varDecl, hv] at h
  | _ => simp [declStmt] at h

theorem varRef_some (name : String) (e : Expr) (b b1 : BoundNodes)
    (h : declRefExpr [to_ ((varDecl [hasType isInteger]).bind name)] e b = some b1) :
    ∃ refLoc refTy v, e = .DeclRefExpr refLoc refTy v ∧ v.isVarDecl = true ∧
      v.type.isIntegerType = true ∧ b1 = b.setBinding name (DynTypedNode.decl v) := by
  cases e with
  | DeclRefExpr refLoc refTy v =>
    by_cases hv : v.isVarDecl = true
    · by_cases ht : v.type.isIntegerType = true
      · refine ⟨refLoc, refTy, v, rfl, hv, ht, ?_⟩
        simpa [declRefExpr, allOf, to_, Matcher.bind, varDecl, hasType, isInteger,
          HasType.getType, hv, ht, AsDynTypedNode.create, eq_comm] using h
      · simp [declRefExpr, allOf, to_, Matcher.bind, varDecl, hasType, isInteger,
          HasType.getType, hv, ht] at h
    · simp [declRefExpr, allOf, to_, Matcher.bind, varDecl, hv] at h
  | _ => simp [declRefExpr] at h

theorem increment_some (inc : Expr) (b b1 : BoundNodes)
    (h : unaryOperator [hasOperatorName "++",
      hasUnaryOperand (declRefExpr [to_
        ((varDecl [hasType isInteger]).bind "incVarName")])] inc b = some b1) :
    ∃ opLoc incTy incOp refLoc refTy incVar,
      inc = .UnaryOperator opLoc incTy incOp (.DeclRefExpr refLoc refTy incVar) ∧
      incOp.getOpcodeStr = "++" ∧ incVar.isVarDecl = true ∧
      incVar.type.isIntegerType = true ∧
      b1 = b.setBinding "incVarName" (DynTypedNode.decl incVar) := by
  cases inc with
  | UnaryOperator opLoc incTy incOp sub =>
    by_cases hop : incOp.getOpcodeStr = "++"
    · have h2 : declRefExpr [to_ ((varDecl [hasType isInteger]).bind "incVarName")] sub b
          = some b1 := by
        simpa [unaryOperator, allOf, hasOperatorName, hop, hasUnaryOperand] using h
      obtain ⟨refLoc, refTy, v, he, hv, ht, hb⟩ := varRef_some _ _ _ _ h2
      exact ⟨opLoc, incTy, incOp, refLoc, refTy, v, by rw [he], hop, hv, ht, hb⟩
    · simp [unaryOperator, allOf, hasOperatorName, hop] at h
  | _ => simp [unaryOperator] at h

theorem condition_some (cond : Expr) (b b1 : BoundNodes)
    (h : binaryOperator [hasOperatorName "<",
      hasLHS (ignoringParenImpCasts (declRefExpr [to_
        ((varDecl [hasType isInteger]).bind "condVarName")])),
      hasRHS (expr [hasType isInteger])] cond b = some b1) :
    ∃ condTy lhs rhs lhsLoc lhsTy condVar,
      cond = .BinaryOperator condTy .LT lhs rhs ∧
      lhs.IgnoreParenImpCasts = .DeclRefExpr lhsLoc lhsTy condVar ∧
      condVar.isVarDecl = true ∧ condVar.type.isIntegerType = true ∧
      rhs.getType.isIntegerType = true ∧
      b1 = b.setBinding "condVarName" (DynTypedNode.decl condVar) := by
  cases cond with
  | BinaryOperator condTy op lhs rhs =>
    by_cases hop : op.getOpcodeStr = "<"
    · have hlt := opcode_lt op hop
      subst hlt
      rcases h2 : declRefExpr [to_ ((varDecl [hasType isInteger]).bind "condVarName")]
          lhs.IgnoreParenImpCasts b with _ | b2
      · simp [binaryOperator, allOf, hasOperatorName, hop, hasLHS, ignoringParenImpCasts,
          h2] at h
      · obtain ⟨lhsLoc, lhsTy, v, he, hv, ht, hb⟩ := varRef_some _ _ _ _ h2
        by_cases hr : rhs.getType.isIntegerType = true
        · refine ⟨condTy, lhs, rhs, lhsLoc, lhsTy, v, rfl, he, hv, ht, hr, ?_⟩
          rw [← hb]
          simpa [binaryOperator, allOf, hasOperatorName, hop, hasLHS, ignoringParenImpCasts,
            h2, hasRHS, expr, hasType, isInteger, HasType.getType, hr, eq_comm] using h
        · simp [binaryOperator, allOf, hasOperatorName, hop, hasLHS, ignoringParenImpCasts,
            h2, hasRHS, expr, hasType, isInteger, HasType.getType, hr] at h
    · simp [binaryOperator, allOf, hasOperatorName, hop] at h
  | _ => simp [binaryOperator] at h

/-- Every match of the loop rule has the shape the rule describes, and binds the four
names. -/
theorem forLoopMatcher_some (n : Stmt) (b : BoundNodes) (h : forLoopMatcher n ⟨[]⟩ = some b) :
    ∃ forLoc declLoc litLoc litTy initVar opLoc incTy incOp refLoc refTy incVar condTy lhs rhs
        lhsLoc lhsTy condVar body,
      n = .ForStmt forLoc (some (.DeclStmt declLoc [initVar]))
          (some (.BinaryOperator condTy .LT lhs rhs))
          (some (.UnaryOperator opLoc incTy incOp (.DeclRefExpr refLoc refTy incVar))) body ∧
      initVar.isVarDecl = true ∧
      initVar.init = some (.IntegerLiteral litLoc litTy 0) ∧
      incOp.getOpcodeStr = "++" ∧
      incVar.isVarDecl = true ∧ incVar.type.isIntegerType = true ∧
      lhs.IgnoreParenImpCasts = .DeclRefExpr lhsLoc lhsTy condVar ∧
      condVar.isVarDecl = true ∧ condVar.type.isIntegerType = true ∧
      rhs.getType.isIntegerType = true ∧
      b = ⟨[("forLoop", DynTypedNode.stmt n), ("condVarName", DynTypedNode.decl condVar),
        ("incVarName", DynTypedNode.decl incVar),
        ("initVarName", DynTypedNode.decl initVar)]⟩ := by
  cases n with
  | ForStmt forLoc init cond inc body =>
    rcases init with _ | init
    · simp [forLoopMatcher, Matcher.bind, forStmt, allOf, hasLoopInit] at h
    rcases h1 : declStmt [hasSingleDecl
      ((varDecl [hasInitializer (integerLiteral [equals 0])]).bind "initVarName")] init ⟨[]⟩
      with _ | b1
    · simp [forLoopMatcher, Matcher.bind, forStmt, allOf, hasLoopInit, h1] at h
    rcases inc with _ | inc
    · simp [forLoopMatcher, Matcher.bind, forStmt, allOf, hasLoopInit, h1, hasIncrement] at h
    rcases h2 : unaryOperator [hasOperatorName "++",
      hasUnaryOperand (declRefExpr [to_
        ((varDecl [hasType isInteger]).bind "incVarName")])] inc b1 with _ | b2
    · simp [forLoopMatcher, Matcher.bind, forStmt, allOf, hasLoopInit, h1, hasIncrement, h2] at h
    rcases cond with _ | cond
    · simp [forLoopMatcher, Matcher.bind, forStmt, allOf, hasLoopInit, h1, hasIncrement, h2,
        hasCondition] at h
    rcases h3 : binaryOperator [hasOperatorName "<",
      hasLHS (ignoringParenImpCasts (declRefExpr [to_
        ((varDecl [hasType isInteger]).bind "condVarName")])),
      hasRHS (expr [hasType isInteger])] cond b2 with _ | b3
    · simp [forLoopMatcher, Matcher.bind, forStmt, allOf, hasLoopInit, h1, hasIncrement, h2,
        hasCondition, h3] at h
    obtain ⟨declLoc, litLoc, litTy, initVar, e1, f1, f2, hb1⟩ := loopInit_some _ _ _ h1
    obtain ⟨opLoc, incTy, incOp, refLoc, refTy, incVar, e2, g1, g2, g3, hb2⟩ :=
      increment_some _ _ _ h2
    obtain ⟨condTy, lhs, rhs, lhsLoc, lhsTy, condVar, e3, k1, k2, k3, k4, hb3⟩ :=
      condition_some _ _ _ h3
    subst e1 e2 e3
    refine ⟨forLoc, declLoc, litLoc, litTy, initVar, opLoc, incTy, incOp, refLoc, refTy, incVar,
      condTy, lhs, rhs, lhsLoc, lhsTy, condVar, body, rfl, f1, f2, g1, g2, g3, k1, k2, k3, k4,
      ?_⟩
    have hb : b = b3.setBinding "forLoop" (DynTypedNode.stmt
        (.ForStmt forLoc (some (.DeclStmt declLoc [initVar]))
          (some (.BinaryOperator condTy .LT lhs rhs))
          (some (.UnaryOperator opLoc incTy incOp (.DeclRefExpr refLoc refTy incVar))) body)) := by
      simpa [forLoopMatcher, Matcher.bind, forStmt, allOf, hasLoopInit, h1, hasIncrement, h2,
        hasCondition, h3, AsDynTypedNode.create, eq_comm] using h
    rw [hb, hb3, hb2, hb1]
    simp [BoundNodes.setBinding]
  | _ => simp [forLoopMatcher, Matcher.bind, forStmt] at h

theorem getNodeAs_VarDecl_of_bindings (n : Stmt) (initVar incVar condVar : Decl)
    (h1 : initVar.isVarDecl = true) (h2 : incVar.isVarDecl = true)
    (h3 : condVar.isVarDecl = true) :
    let b : BoundNodes := ⟨[("forLoop", DynTypedNode.stmt n),
      ("condVarName", DynTypedNode.decl condVar), ("incVarName", DynTypedNode.decl incVar),
      ("initVarName", DynTypedNode.decl initVar)]⟩
    b.getNodeAs_VarDecl "incVarName" = some incVar ∧
    b.getNodeAs_VarDecl "condVarName" = some condVar ∧
    b.getNodeAs_VarDecl "initVarName" = some initVar ∧
    b.getNode "forLoop" = some (DynTypedNode.stmt n) := by
  simp [BoundNodes.getNodeAs_VarDecl, BoundNodes.getNode, List.find?, h1, h2, h3]

theorem matchers_eq : MyASTConsumer.Matcher.Matchers
    = [(ifStmtMatcher, IfStmtHandler.run), (forLoopMatcher, IncrementForLoopHandler.run)] := rfl

theorem InsertText_increment (R : Rewriter) (p : Nat) :
    R.InsertText p "/* increment */".toList true true
      = ⟨R.source, ⟨R.buffer.edits ++ [⟨p, "/* increment */".toList, R.buffer.next⟩],
          R.buffer.next + 1⟩⟩ := by
  have h : insertedText R.source p "/* increment */".toList true = "/* increment */".toList :=
    insertedText_of_no_newline _ _ _ _ (by decide)
  simp only [Rewriter.InsertText, h, EditBuffer.insert, if_true]

theorem IncrementForLoopHandler_run_bound (n : Stmt) (initVar incVar condVar : Decl)
    (R : Rewriter) (h : incVar.isVarDecl = true) :
    IncrementForLoopHandler.run ⟨⟨[("forLoop", DynTypedNode.stmt n),
      ("condVarName", DynTypedNode.decl condVar), ("incVarName", DynTypedNode.decl incVar),
      ("initVarName", DynTypedNode.decl initVar)]⟩⟩ R
      = some (R.InsertText incVar.locStart "/* increment */".toList true true) := by
  simp [IncrementForLoopHandler.run, BoundNodes.getNodeAs_VarDecl, BoundNodes.getNode,
    List.find?, h]

theorem matchNode_forStmt (n : Stmt) (h : n.isIfStmt = false) (R : Rewriter) :
    matchNode MyASTConsumer.Matcher.Matchers n R =
      match forLoopMatcher n ⟨[]⟩ with
      | some b => IncrementForLoopHandler.run ⟨b⟩ R
      | none => some R := by
  rw [matchers_eq]
  simp only [matchNode, ifStmtMatcher_of_not_if n h]
  cases forLoopMatcher n ⟨[]⟩ with
  | none => rfl
  | some b => exact Option.bind_some _

set_option maxRecDepth 100000 in
theorem mixed_and_same_loops :
    (forLoopMatcher mixedFor ⟨[]⟩).isSome = true ∧
    ((forLoopMatcher mixedFor ⟨[]⟩).bind (fun b => b.getNodeAs_VarDecl "incVarName")).map
      (fun d => d.id) = some 13 ∧
    ((forLoopMatcher mixedFor ⟨[]⟩).bind (fun b => b.getNodeAs_VarDecl "condVarName")).map
      (fun d => d.id) = some 12 ∧
    (MyASTConsumer.HandleTranslationUnit mixedTU
        (MyFrontendAction.CreateASTConsumer mixedSource)).map (fun R => R.buffer.edits)
      = some [⟨14, "/* increment */".toList, 0⟩] ∧
    (forLoopMatcher sameFor ⟨[]⟩).isSome = true ∧
    ((forLoopMatcher sameFor ⟨[]⟩).bind (fun b => b.getNodeAs_VarDecl "incVarName")).map
      (fun d => d.id) = some 11 ∧
    ((forLoopMatcher sameFor ⟨[]⟩).bind (fun b => b.getNodeAs_VarDecl "condVarName")).map
      (fun d => d.id) = some 11 :=
  ⟨by decide, by decide, by decide, by rfl, by decide, by decide, by decide⟩

/-- Claim C2, as amended: the loop rule does not require the increment target and the
condition target to be the same declaration. Whenever the rule matches a node, the
node is a for-loop whose increment is `++` on a reference to a variable, bound as
'incVarName', and whose condition is `<` with a reference to a variable on the left
(parentheses and implicit casts ignored), bound as 'condVarName'; nothing compares
the two, and `IncrementForLoopHandler::run` inserts "/* increment */" at the
declaration bound as 'incVarName'. The loop `for (int i = 0; j < n; ++k)` with
distinct declarations `j` (id 12) and `k` (id 13) is matched and the program makes
one edit, at offset 14, the declaration of `k`; `for (int i = 0; i < n; ++i)` is
matched, both names bound to `i` (id 11). -/
theorem C2_forLoop_pattern_ignores_identity (n : Stmt) (b : BoundNodes) (R : Rewriter)
    (h : forLoopMatcher n ⟨[]⟩ = some b) :
    (∃ forLoc init condTy lhs rhs opLoc incTy incOp refLoc refTy incVar lhsLoc lhsTy condVar
        body,
      n = .ForStmt forLoc init (some (.BinaryOperator condTy .LT lhs rhs))
          (some (.UnaryOperator opLoc incTy incOp (.DeclRefExpr refLoc refTy incVar))) body ∧
      incOp.getOpcodeStr = "++" ∧
      lhs.IgnoreParenImpCasts = .DeclRefExpr lhsLoc lhsTy condVar ∧
      b.getNodeAs_VarDecl "incVarName" = some incVar ∧
      b.getNodeAs_VarDecl "condVarName" = some condVar ∧
      IncrementForLoopHandler.run ⟨b⟩ R
        = some (R.InsertText incVar.locStart "/* increment */".toList true true)) ∧
    ((forLoopMatcher mixedFor ⟨[]⟩).isSome = true ∧
      ((forLoopMatcher mixedFor ⟨[]⟩).bind (fun b => b.getNodeAs_VarDecl "incVarName")).map
        (fun d => d.id) = some 13 ∧
      ((forLoopMatcher mixedFor ⟨[]⟩).bind (fun b => b.getNodeAs_VarDecl "condVarName")).map
        (fun d => d.id) = some 12 ∧
      (MyASTConsumer.HandleTranslationUnit mixedTU
          (MyFrontendAction.CreateASTConsumer mixedSource)).map (fun R => R.buffer.edits)
        = some [⟨14, "/* increment */".toList, 0⟩]) ∧
    ((forLoopMatcher sameFor ⟨[]⟩).isSome = true ∧
      ((forLoopMatcher sameFor ⟨[]⟩).bind (fun b => b.getNodeAs_VarDecl "incVarName")).map
        (fun d => d.id) = some 11 ∧
      ((forLoopMatcher sameFor ⟨[]⟩).bind (fun b => b.getNodeAs_VarDecl "condVarName")).map
        (fun d => d.id) = some 11) := by
  obtain ⟨forLoc, declLoc, litLoc, litTy, initVar, opLoc, incTy, incOp, refLoc, refTy, incVar,
    condTy, lhs, rhs, lhsLoc, lhsTy, condVar, body, hn, f1, f2, g1, g2, g3, k1, k2, k3, k4, hb⟩ :=
    forLoopMatcher_some n b h
  have hget := getNodeAs_VarDecl_of_bindings n initVar incVar condVar f1 g2 k2
  have hm := mixed_and_same_loops
  subst hb
  exact ⟨⟨forLoc, _, condTy, lhs, rhs, opLoc, incTy, incOp, refLoc, refTy, incVar, lhsLoc,
    lhsTy, condVar, body, hn, g1, k1, hget.1, hget.2.1,
    IncrementForLoopHandler_run_bound n initVar incVar condVar R g2⟩,
    ⟨hm.1, hm.2.1, hm.2.2.1, hm.2.2.2.1⟩, ⟨hm.2.2.2.2.1, hm.2.2.2.2.2.1, hm.2.2.2.2.2.2⟩⟩

/-- The loop `for (int i = 0; j < n; ++k)` is matched, with 'incVarName' bound to `k`
and 'condVarName' to `j`. -/
theorem C2_witness :
    varK.id ≠ varJ.id ∧
    forLoopMatcher mixedFor ⟨[]⟩ = some ⟨[("forLoop", DynTypedNode.stmt mixedFor),
      ("condVarName", DynTypedNode.decl varJ), ("incVarName", DynTypedNode.decl varK),
      ("initVarName", DynTypedNode.decl
        ⟨11, .Var, "i", .IntTy, 37, some (.IntegerLiteral 45 .IntTy 0)⟩)]⟩ ∧
    ∃ forLoc init condTy lhs rhs opLoc incTy incOp refLoc refTy incVar lhsLoc lhsTy condVar
        body,
      mixedFor = .ForStmt forLoc init (some (.BinaryOperator condTy .LT lhs rhs))
          (some (.UnaryOperator opLoc incTy incOp (.DeclRefExpr refLoc refTy incVar))) body ∧
      incOp.getOpcodeStr = "++" ∧
      lhs.IgnoreParenImpCasts = .DeclRefExpr lhsLoc lhsTy condVar ∧
      BoundNodes.getNodeAs_VarDecl ⟨[("forLoop", DynTypedNode.stmt mixedFor),
        ("condVarName", DynTypedNode.decl varJ), ("incVarName", DynTypedNode.decl varK),
        ("initVarName", DynTypedNode.decl
          ⟨11, .Var, "i", .IntTy, 37, some (.IntegerLiteral 45 .IntTy 0)⟩)]⟩ "incVarName"
        = some incVar ∧
      BoundNodes.getNodeAs_VarDecl ⟨[("forLoop", DynTypedNode.stmt mixedFor),
        ("condVarName", DynTypedNode.decl varJ), ("incVarName", DynTypedNode.decl varK),
        ("initVarName", DynTypedNode.decl
          ⟨11, .Var, "i", .IntTy, 37, some (.IntegerLiteral 45 .IntTy 0)⟩)]⟩ "condVarName"
        = some condVar ∧
      IncrementForLoopHandler.run ⟨⟨[("forLoop", DynTypedNode.stmt mixedFor),
        ("condVarName", DynTypedNode.decl varJ), ("incVarName", DynTypedNode.decl varK),
        ("initVarName", DynTypedNode.decl
          ⟨11, .Var, "i", .IntTy, 37, some (.IntegerLiteral 45 .IntTy 0)⟩)]⟩⟩
          (MyFrontendAction.CreateASTConsumer mixedSource)
        = some ((MyFrontendAction.CreateASTConsumer mixedSource).InsertText incVar.locStart
            "/* increment */".toList true true) :=
  have hm : forLoopMatcher mixedFor ⟨[]⟩ = some ⟨[("forLoop", DynTypedNode.stmt mixedFor),
      ("condVarName", DynTypedNode.decl varJ), ("incVarName", DynTypedNode.decl varK),
      ("initVarName", DynTypedNode.decl
        ⟨11, .Var, "i", .IntTy, 37, some (.IntegerLiteral 45 .IntTy 0)⟩)]⟩ := by rfl
  ⟨by decide, hm, (C2_forLoop_pattern_ignores_identity mixedFor _
    (MyFrontendAction.CreateASTConsumer mixedSource) hm).1⟩

set_option maxRecDepth 100000 in
/-- Against C2 as stated: `for (int i = 0; j < n; ++k)` with distinct `j` and `k` is
matched and gets the marker at the declaration of `k`. -/
theorem C2_counterexample :
    (forLoopMatcher mixedFor ⟨[]⟩).isSome = true ∧
    ((forLoopMatcher mixedFor ⟨[]⟩).bind (fun b => b.getNodeAs_VarDecl "incVarName")).map
      (fun d => d.id) = some 13 ∧
    ((forLoopMatcher mixedFor ⟨[]⟩).bind (fun b => b.getNodeAs_VarDecl "condVarName")).map
      (fun d => d.id) = some 12 ∧
    (MyASTConsumer.HandleTranslationUnit mixedTU
        (MyFrontendAction.CreateASTConsumer mixedSource)).map (fun R => R.buffer.edits)
      = some [⟨14, "/* increment */".toList, 0⟩] ∧
    runTool mixedSource mixedTU = some (.ok
      ("void f(int j, /* increment */int k, int n) \x7b\n" ++
       "  for (int i = 0; j < n; ++k) ;\n" ++
       "\x7d\n").toList) := by
  refine ⟨by decide, by decide, by decide, by rfl, by rfl⟩

theorem IfStmtHandler_run_total (res : MatchResult) (R : Rewriter) :
    ∃ R1, IfStmtHandler.run res R = some R1 := by
  unfold IfStmtHandler.run
  cases res.Nodes.getNodeAs_IfStmt "ifStmt" with
  | none => exact ⟨_, rfl⟩
  | some IfS =>
    cases h : IfS.getElse with
    | none => simp [h]
    | some e => simp [h]

theorem forRule_total (n : Stmt) (R : Rewriter) :
    ∃ R1, matchNode [(forLoopMatcher, IncrementForLoopHandler.run)] n R = some R1 := by
  cases h : forLoopMatcher n ⟨[]⟩ with
  | none => exact ⟨R, by simp [matchNode, h]⟩
  | some b =>
    obtain ⟨_, _, _, _, initVar, _, _, _, _, _, incVar, _, _, _, _, _, condVar, _, _, _, _, _,
      g2, _, _, _, _, _, hb⟩ := forLoopMatcher_some n b h
    subst hb
    refine ⟨R.InsertText incVar.locStart "/* increment */".toList true true, ?_⟩
    rw [matchNode]
    simp only [h, IncrementForLoopHandler_run_bound n initVar incVar condVar R g2,
      Option.some_bind, matchNode]

theorem matchNode_total (n : Stmt) (R : Rewriter) :
    ∃ R1, matchNode MyASTConsumer.Matcher.Matchers n R = some R1 := by
  rw [matchers_eq]
  cases h : ifStmtMatcher n ⟨[]⟩ with
  | none =>
    obtain ⟨R1, h1⟩ := forRule_total n R
    exact ⟨R1, by rw [matchNode]; simp only [h]; exact h1⟩
  | some b =>
    obtain ⟨R1, h1⟩ := IfStmtHandler_run_total ⟨b⟩ R
    obtain ⟨R2, h2⟩ := forRule_total n R1
    exact ⟨R2, by rw [matchNode]; simp only [h, h1, Option.some_bind]; exact h2⟩

theorem matchNodes_total : ∀ (ns : List Stmt) (R : Rewriter),
    ∃ R1, matchNodes MyASTConsumer.Matcher.Matchers ns R = some R1
  | [], R => ⟨R, rfl⟩
  | n :: ns, R => by
    obtain ⟨R1, h1⟩ := matchNode_total n R
    obtain ⟨R2, h2⟩ := matchNodes_total ns R1
    exact ⟨R2, by simp [matchNodes, h1, h2]⟩

/-- Claim C3, as amended: for every for-loop `for (T x = 0; x < e; ++x) body` whose
declaration of `x` has the integer literal 0 itself as its initializer node (no
implicit conversion around it, as for `T = int`), with `x` of integer type, `e` of
integer type, and init, condition and increment all naming the one declaration `x`,
the loop rule matches the loop and visiting the loop node makes exactly one
insertion: the text "/* increment */" at the start offset of the declaration of
`x`, appended to the pending edits as it is (the text has no newline). -/
theorem C3_counting_loop_one_insertion (forLoc declLoc litLoc : Nat) (litTy : QualType)
    (x : Decl) (opLoc : Nat) (incTy : QualType) (incOp : UnaryOperatorKind)
    (refLoc : Nat) (refTy : QualType) (condTy : QualType) (lhs rhs : Expr)
    (lhsLoc : Nat) (lhsTy : QualType) (body : Stmt) (R : Rewriter)
    (hVar : x.isVarDecl = true) (hTy : x.type.isIntegerType = true)
    (hInit : x.init = some (.IntegerLiteral litLoc litTy 0))
    (hOp : incOp.getOpcodeStr = "++")
    (hLhs : lhs.IgnoreParenImpCasts = .DeclRefExpr lhsLoc lhsTy x)
    (hRhs : rhs.getType.isIntegerType = true) :
    (∃ b, forLoopMatcher
        (.ForStmt forLoc (some (.DeclStmt declLoc [x]))
          (some (.BinaryOperator condTy .LT lhs rhs))
          (some (.UnaryOperator opLoc incTy incOp (.DeclRefExpr refLoc refTy x))) body)
        ⟨[]⟩ = some b ∧
      b.getNodeAs_VarDecl "incVarName" = some x) ∧
    matchNode MyASTConsumer.Matcher.Matchers
        (.ForStmt forLoc (some (.DeclStmt declLoc [x]))
          (some (.BinaryOperator condTy .LT lhs rhs))
          (some (.UnaryOperator opLoc incTy incOp (.DeclRefExpr refLoc refTy x))) body) R
      = some (R.InsertText x.locStart "/* increment */".toList true true) ∧
    (R.InsertText x.locStart "/* increment */".toList true true).buffer.edits
      = R.buffer.edits ++ [⟨x.locStart, "/* increment */".toList, R.buffer.next⟩] ∧
    (R.InsertText x.locStart "/* increment */".toList true true).source = R.source := by
  have hm := forLoopMatcher_match forLoc declLoc litLoc litTy x opLoc incTy incOp refLoc
    refTy x condTy lhs rhs lhsLoc lhsTy x body hVar hInit hOp hVar hTy hLhs hVar hTy hRhs
  refine ⟨⟨_, hm, (getNodeAs_VarDecl_of_bindings _ x x x hVar hVar hVar).1⟩, ?_, ?_, ?_⟩
  · have hnode := matchNode_forStmt
      (.ForStmt forLoc (some (.DeclStmt declLoc [x])) (some (.BinaryOperator condTy .LT lhs rhs))
        (some (.UnaryOperator opLoc incTy incOp (.DeclRefExpr refLoc refTy x))) body) rfl R
    rw [hnode, hm]
    exact IncrementForLoopHandler_run_bound _ x x x R hVar
  · rw [InsertText_increment]
  · rw [InsertText_increment]

set_option maxRecDepth 100000 in
/-- The loop of `bang` satisfies the hypotheses of the amended C3: one insertion, just
before `int i = 0`. -/
theorem C3_witness :
    (∃ b, forLoopMatcher bangFor ⟨[]⟩ = some b ∧
      b.getNodeAs_VarDecl "incVarName" = some bangI) ∧
    matchNode MyASTConsumer.Matcher.Matchers bangFor
        (MyFrontendAction.CreateASTConsumer sampleSource)
      = some ((MyFrontendAction.CreateASTConsumer sampleSource).InsertText 153
          "/* increment */".toList true true) ∧
    ((MyFrontendAction.CreateASTConsumer sampleSource).InsertText 153
        "/* increment */".toList true true).buffer.edits
      = [⟨153, "/* increment */".toList, 0⟩] ∧
    (sampleSource.drop 153).take 9 = "int i = 0".toList :=
  have h := C3_counting_loop_one_insertion 148 153 161 .IntTy bangI 171 .IntTy .PreInc 173
    .IntTy .IntTy (.ImplicitCastExpr .IntTy (.DeclRefExpr 164 .IntTy bangI))
    (.ImplicitCastExpr .IntTy (.DeclRefExpr 168 .IntTy bangV)) 164 .IntTy
    (.CompoundStmt 176
      [.ExprStmt (.BinaryOperator .IntTy .SubAssign
        (.ArraySubscriptExpr .IntTy
          (.ImplicitCastExpr (.Pointer .IntTy) (.DeclRefExpr 186 (.Pointer .IntTy) bangA))
          (.ImplicitCastExpr .IntTy (.DeclRefExpr 188 .IntTy bangI)))
        (.ImplicitCastExpr .IntTy (.DeclRefExpr 194 .IntTy bangI)))])
    (MyFrontendAction.CreateASTConsumer sampleSource) rfl rfl rfl rfl rfl rfl
  ⟨h.1, h.2.1, h.2.2.1, by decide⟩

set_option maxRecDepth 100000 in
/-- Against C3 as stated: `for (long x = 0; x < e; ++x)` is not matched and gets no
insertion; the output is the source. -/
theorem C3_counterexample :
    longX.type.isIntegerType = true ∧ longE.type.isIntegerType = true ∧
    forLoopMatcher longFor ⟨[]⟩ = none ∧
    (MyASTConsumer.HandleTranslationUnit longTU
        (MyFrontendAction.CreateASTConsumer longSource)).map (fun R => R.buffer.edits)
      = some [] ∧
    runTool longSource longTU = some (.ok longSource) := by
  refine ⟨rfl, rfl, ?_, by rfl, by rfl⟩
  cases h : forLoopMatcher longFor ⟨[]⟩ with
  | none => rfl
  | some b =>
    have : (forLoopMatcher longFor ⟨[]⟩).isSome = false := by decide
    rw [h] at this
    exact absurd this (by simp)

/-- Claim C10: whenever the loop rule matches a node, the bindings hold 'incVarName',
'initVarName' and 'condVarName' bound to variable declarations and 'forLoop' bound
to the node, so `IncrementForLoopHandler::run` finds its variable and returns; a
node the rule does not match leaves the rewriter untouched (no callback runs); and
a run of the program over any tree never dereferences a null binding. -/
theorem C10_incVarName_always_bound (n : Stmt) (b : BoundNodes) (R : Rewriter)
    (h : forLoopMatcher n ⟨[]⟩ = some b) :
    (∃ incVar, b.getNodeAs_VarDecl "incVarName" = some incVar ∧
      IncrementForLoopHandler.run ⟨b⟩ R
        = some (R.InsertText incVar.locStart "/* increment */".toList true true)) ∧
    (∃ initVar, b.getNodeAs_VarDecl "initVarName" = some initVar) ∧
    (∃ condVar, b.getNodeAs_VarDecl "condVarName" = some condVar) ∧
    b.getNode "forLoop" = some (DynTypedNode.stmt n) ∧
    (∀ (n1 : Stmt) (R1 : Rewriter), forLoopMatcher n1 ⟨[]⟩ = none →
      matchNode [(forLoopMatcher, IncrementForLoopHandler.run)] n1 R1 = some R1) ∧
    (∀ (tu : TranslationUnit) (R1 : Rewriter),
      (MyASTConsumer.HandleTranslationUnit tu R1).isSome = true) := by
  obtain ⟨forLoc, declLoc, litLoc, litTy, initVar, opLoc, incTy, incOp, refLoc, refTy, incVar,
    condTy, lhs, rhs, lhsLoc, lhsTy, condVar, body, hn, f1, f2, g1, g2, g3, k1, k2, k3, k4, hb⟩ :=
    forLoopMatcher_some n b h
  have hget := getNodeAs_VarDecl_of_bindings n initVar incVar condVar f1 g2 k2
  subst hb
  refine ⟨⟨incVar, hget.1, IncrementForLoopHandler_run_bound n initVar incVar condVar R g2⟩,
    ⟨initVar, hget.2.2.1⟩, ⟨condVar, hget.2.1⟩, hget.2.2.2, ?_, ?_⟩
  · intro n1 R1 h1
    simp [matchNode, h1]
  · intro tu R1
    obtain ⟨R2, h2⟩ := matchNodes_total tu.stmtNodes R1
    simp [MyASTConsumer.HandleTranslationUnit, MatchFinder.matchAST, h2]

/-- The loop of `bang` is matched by the loop rule. -/
theorem C10_witness :
    forLoopMatcher bangFor ⟨[]⟩ = some ⟨[("forLoop", DynTypedNode.stmt bangFor),
      ("condVarName", DynTypedNode.decl bangI), ("incVarName", DynTypedNode.decl bangI),
      ("initVarName", DynTypedNode.decl bangI)]⟩ ∧
    ∃ incVar, BoundNodes.getNodeAs_VarDecl ⟨[("forLoop", DynTypedNode.stmt bangFor),
        ("condVarName", DynTypedNode.decl bangI), ("incVarName", DynTypedNode.decl bangI),
        ("initVarName", DynTypedNode.decl bangI)]⟩ "incVarName" = some incVar ∧
      IncrementForLoopHandler.run ⟨⟨[("forLoop", DynTypedNode.stmt bangFor),
        ("condVarName", DynTypedNode.decl bangI), ("incVarName", DynTypedNode.decl bangI),
        ("initVarName", DynTypedNode.decl bangI)]⟩⟩
          (MyFrontendAction.CreateASTConsumer sampleSource)
        = some ((MyFrontendAction.CreateASTConsumer sampleSource).InsertText incVar.locStart
            "/* increment */".toList true true) :=
  have hm : forLoopMatcher bangFor ⟨[]⟩ = some ⟨[("forLoop", DynTypedNode.stmt bangFor),
      ("condVarName", DynTypedNode.decl bangI), ("incVarName", DynTypedNode.decl bangI),
      ("initVarName", DynTypedNode.decl bangI)]⟩ := by rfl
  ⟨hm, (C10_incVarName_always_bound bangFor _
    (MyFrontendAction.CreateASTConsumer sampleSource) hm).1⟩

/-! ### Trees without a conditional, and the documented output -/

theorem matchNodes_ifRule_of_no_if : ∀ (ns : List Stmt) (R : Rewriter),
    (∀ n ∈ ns, n.isIfStmt = false) →
    matchNodes [(ifStmtMatcher, IfStmtHandler.run)] ns R = some R
  | [], _, _ => rfl
  | n :: ns, R, h => by
    have hn := ifStmtMatcher_of_not_if n (h n (List.mem_cons_self _ _))
    have ih := matchNodes_ifRule_of_no_if ns R (fun m hm => h m (List.mem_cons_of_mem _ hm))
    simp [matchNodes, matchNode, hn, ih]

theorem matchNodes_program_of_no_if : ∀ (ns : List Stmt) (R : Rewriter),
    (∀ n ∈ ns, n.isIfStmt = false) →
    matchNodes MyASTConsumer.Matcher.Matchers ns R
      = matchNodes [(forLoopMatcher, IncrementForLoopHandler.run)] ns R
  | [], _, _ => rfl
  | n :: ns, R, h => by
    have hn := ifStmtMatcher_of_not_if n (h n (List.mem_cons_self _ _))
    have hnode : matchNode MyASTConsumer.Matcher.Matchers n R
        = matchNode [(forLoopMatcher, IncrementForLoopHandler.run)] n R := by
      rw [matchers_eq, matchNode]
      simp only [hn]
    rw [matchNodes, matchNodes, hnode]
    cases matchNode [(forLoopMatcher, IncrementForLoopHandler.run)] n R with
    | none => rfl
    | some R1 =>
      exact matchNodes_program_of_no_if ns R1 (fun m hm => h m (List.mem_cons_of_mem _ hm))

/-- Claim C6: on a tree without a conditional node the 'ifStmt' rule has no match,
running it alone leaves the rewriter untouched, and the whole program does exactly
what its loop rule alone does (`IfStmtHandler` contributes no edit). For the
declaration `void bar(float x, float y);` there is no match and no insertion, and
the output is the source unchanged. -/
theorem C6_no_conditional_no_match (tu : TranslationUnit) (R : Rewriter)
    (h : ∀ n ∈ tu.stmtNodes, n.isIfStmt = false) :
    matchesOf ifStmtMatcher tu = [] ∧
    (MatchFinder.mk [(ifStmtMatcher, IfStmtHandler.run)]).matchAST tu R = some R ∧
    MyASTConsumer.HandleTranslationUnit tu R
      = (MatchFinder.mk [(forLoopMatcher, IncrementForLoopHandler.run)]).matchAST tu R ∧
    matchesOf ifStmtMatcher barTU = [] ∧
    MyASTConsumer.HandleTranslationUnit barTU (MyFrontendAction.CreateASTConsumer barSource)
      = some (MyFrontendAction.CreateASTConsumer barSource) ∧
    runTool barSource barTU = some (.ok barSource) := by
  refine ⟨?_, matchNodes_ifRule_of_no_if _ R h, matchNodes_program_of_no_if _ R h, by rfl,
    by rfl, by rfl⟩
  simp only [matchesOf, List.filterMap_eq_nil_iff]
  exact fun n hn => ifStmtMatcher_of_not_if n (h n hn)

/-- The tree of `void bar(float x, float y);` has no conditional node. -/
theorem C6_witness :
    (∀ n ∈ TranslationUnit.stmtNodes barTU, n.isIfStmt = false) ∧
    matchesOf ifStmtMatcher barTU = [] ∧
    (MatchFinder.mk [(ifStmtMatcher, IfStmtHandler.run)]).matchAST barTU
      (MyFrontendAction.CreateASTConsumer barSource)
        = some (MyFrontendAction.CreateASTConsumer barSource) :=
  have h : ∀ n ∈ TranslationUnit.stmtNodes barTU, n.isIfStmt = false := by
    intro n hn
    simp [TranslationUnit.stmtNodes, barTU, TopLevelDecl.stmtNodes, Decl.initNodes, mkVar,
      Expr.optStmtNodes, Stmt.nodesOfOption] at hn
  have hc := C6_no_conditional_no_match barTU (MyFrontendAction.CreateASTConsumer barSource) h
  ⟨h, hc.1, hc.2.1⟩

theorem indentLines_ifMarker (src : Text) (p : Nat) :
    insertedText src p "// the 'if' part\n".toList true
      = "// the 'if' part\n".toList ++ indentSpace src p := by
  have h1 : ("// the 'if' part\n".toList).contains '\n' = true := by decide
  have h2 : splitLines "// the 'if' part\n".toList = ["// the 'if' part".toList, []] := by
    decide
  rw [insertedText, h1, Bool.and_self, if_pos rfl, indentLines, h2]
  simp [joinIndented]

set_option maxRecDepth 100000 in
theorem sample_run : runTool sampleSource sampleTU = some (.ok documentedOutput) := by rfl

/-- The edit `IfStmtHandler::run` makes for the then-branch, and its rendering, in
terms of the rewriter's own indentation. -/
theorem IfStmtHandler_then_edit (src : Text) (ifLoc : Nat) (cond : Expr)
    (thenStmt : Stmt) (elseStmt : Option Stmt) (R : Rewriter)
    (hp : thenStmt.getLocStart ≤ src.length) :
    (∃ R1, IfStmtHandler.run
        ⟨⟨[("ifStmt", DynTypedNode.stmt (.IfStmt ifLoc cond thenStmt elseStmt))]⟩⟩ R = some R1 ∧
      R1.buffer.edits[R.buffer.edits.length]? = some
        ⟨thenStmt.getLocStart,
          "// the 'if' part\n".toList ++ indentSpace R.source thenStmt.getLocStart,
          R.buffer.next⟩) ∧
    (IfStmtHandler.run ⟨⟨[("ifStmt", DynTypedNode.stmt (.IfStmt ifLoc cond thenStmt none))]⟩⟩
        (MyFrontendAction.CreateASTConsumer src)).map MyFrontendAction.EndSourceFileAction
      = some (.ok (src.take thenStmt.getLocStart ++ "// the 'if' part\n".toList ++
          indentSpace src thenStmt.getLocStart ++ src.drop thenStmt.getLocStart)) := by
  refine ⟨?_, ?_⟩
  · cases elseStmt with
    | none =>
      refine ⟨_, IfStmtHandler_run_bound ifLoc cond thenStmt none R, ?_⟩
      simp only [applyInsertions, ifInsertions, ifMarker, List.foldl_cons, List.foldl_nil,
        Rewriter.InsertText, indentLines_ifMarker, EditBuffer.insert, if_true]
      rw [List.getElem?_append_right (Nat.le_refl _), Nat.sub_self]
      rfl
    | some e =>
      refine ⟨_, IfStmtHandler_run_bound ifLoc cond thenStmt (some e) R, ?_⟩
      simp only [applyInsertions, ifInsertions, ifMarker, List.foldl_cons, List.foldl_nil,
        Rewriter.InsertText, indentLines_ifMarker, EditBuffer.insert, if_true]
      rw [List.append_assoc, List.getElem?_append_right (Nat.le_refl _), Nat.sub_self]
      rfl
  · rw [IfStmtHandler_run_bound ifLoc cond thenStmt none]
    simp only [applyInsertions, ifInsertions, ifMarker, List.foldl_cons, List.foldl_nil,
      Rewriter.InsertText, indentLines_ifMarker, EditBuffer.insert, if_true, Option.map_some',
      MyFrontendAction.EndSourceFileAction, MyFrontendAction.CreateASTConsumer, render,
      EditBuffer.empty, List.nil_append, sortEdits, List.insertionSort, List.orderedInsert]
    simp [emit, List.find?, Nat.not_lt.mpr hp]

/-- Claim C5: on the sample input the tool prints exactly the documented output. In
general, with `w` the leading whitespace of the source line that contains the start
of the then-branch, the pending edit `IfStmtHandler::run` makes for the then-branch
holds the marker "// the 'if' part\n" followed by `w`; so (no else-branch, fresh
buffer) the output is the source up to the then-branch, the marker with its
newline, `w`, and the source from the then-branch on: the then-branch begins on its
own line at that line's indentation. -/
theorem C5_documented_output_and_indentation (src : Text) (b : EditBuffer) (ifLoc : Nat)
    (cond : Expr) (thenStmt : Stmt) (elseStmt : Option Stmt)
    (hp : thenStmt.getLocStart ≤ src.length) :
    runTool sampleSource sampleTU = some (.ok documentedOutput) ∧
    ∃ w, IsLineIndent src thenStmt.getLocStart w ∧
      (∃ R1, IfStmtHandler.run
          ⟨⟨[("ifStmt", DynTypedNode.stmt (.IfStmt ifLoc cond thenStmt elseStmt))]⟩⟩ ⟨src, b⟩
            = some R1 ∧
        R1.buffer.edits[b.edits.length]? = some
          ⟨thenStmt.getLocStart, "// the 'if' part\n".toList ++ w, b.next⟩) ∧
      (IfStmtHandler.run
          ⟨⟨[("ifStmt", DynTypedNode.stmt (.IfStmt ifLoc cond thenStmt none))]⟩⟩
          (MyFrontendAction.CreateASTConsumer src)).map MyFrontendAction.EndSourceFileAction
        = some (.ok (src.take thenStmt.getLocStart ++ "// the 'if' part\n".toList ++ w ++
            src.drop thenStmt.getLocStart)) := by
  have h := IfStmtHandler_then_edit src ifLoc cond thenStmt elseStmt ⟨src, b⟩ hp
  exact ⟨sample_run, indentSpace src thenStmt.getLocStart,
    indentSpace_isLineIndent src _ hp, h.1, h.2⟩

set_option maxRecDepth 100000 in
/-- The conditional of the sample input: its then-branch starts at offset 43, on a line
indented by two blanks. -/
theorem C5_witness :
    43 ≤ sampleSource.length ∧
    runTool sampleSource sampleTU = some (.ok documentedOutput) ∧
    ∃ w, IsLineIndent sampleSource 43 w ∧
      (IfStmtHandler.run ⟨⟨[("ifStmt", DynTypedNode.stmt fooIf)]⟩⟩
          (MyFrontendAction.CreateASTConsumer sampleSource)).map
            MyFrontendAction.EndSourceFileAction
        = some (.ok (sampleSource.take 43 ++ "// the 'if' part\n".toList ++ w ++
            sampleSource.drop 43)) :=
  have h := C5_documented_output_and_indentation sampleSource EditBuffer.empty 29
    (.BinaryOperator .IntTy .GT
      (.ImplicitCastExpr .IntTy
        (.ArraySubscriptExpr .IntTy
          (.ImplicitCastExpr (.Pointer .IntTy) (.DeclRefExpr 33 (.Pointer .IntTy) fooA))
          (.IntegerLiteral 35 .IntTy 0)))
      (.IntegerLiteral 40 .IntTy 1))
    (.CompoundStmt 43
      [.ExprStmt (.BinaryOperator .IntTy .Assign
        (.ArraySubscriptExpr .IntTy
          (.ImplicitCastExpr (.Pointer .IntTy) (.DeclRefExpr 49 (.Pointer .IntTy) fooB))
          (.IntegerLiteral 51 .IntTy 0))
        (.IntegerLiteral 56 .IntTy 2))])
    none (by decide)
  ⟨by decide, h.1, h.2.imp (fun _ hw => ⟨hw.1, hw.2.2⟩)⟩

end MatchersRewriter
